import Mathlib

/-!
Verification of the SlugKit pattern parser (TypeScript source `pattern-parser.ts`).

The embedding below is a direct shallow translation of the TypeScript class
`PatternParser`: strings are `List Char`, the cursor state is the pair of the
fixed input plus a position (exactly the `this.input` / `this.pos` fields of the
source), thrown exceptions become `Except` values that carry the cursor state at
throw time (TypeScript exceptions leave the mutated parser state in place, and
the partial parser's catch blocks read that state), and the `while` loops of the
source become fuel-indexed recursions where the fuel is `input.length + 1`; every
loop iteration of the source consumes at least one character, so this fuel is
never exhausted on any input.
-/

namespace SlugKit

abbrev Str := List Char

/-- Character class of the source regex `/\d/`. -/
def isDigitChar (c : Char) : Bool := '0' ≤ c && c ≤ '9'

/-- Character class of the source regex `/[a-zA-Z_]/`. -/
def isAlphaUnd (c : Char) : Bool :=
  ('a' ≤ c && c ≤ 'z') || ('A' ≤ c && c ≤ 'Z') || c == '_'

/-- Character class of the source regex `/[a-zA-Z0-9_]/`. -/
def isAlnumUnd (c : Char) : Bool := isAlphaUnd c || isDigitChar c

/-- Character class of the source regex `/\s/` (ASCII whitespace; the JS class
also matches some Unicode spaces, which no construct of this grammar uses). -/
def isWsChar (c : Char) : Bool :=
  c == ' ' || c == '\t' || c == '\n' || c == '\r' ||
  c == Char.ofNat 11 || c == Char.ofNat 12

/-- Character class of the source regex `/[<>=!]/`. -/
def isCompChar (c : Char) : Bool := c == '<' || c == '>' || c == '=' || c == '!'

/-- Character class of the source regex `/[dxr]/`. -/
def isShortBaseChar (c : Char) : Bool := c == 'd' || c == 'x' || c == 'r'

/-- `enum CompareOperator` of the source. -/
inductive CompareOperator where
  | none | eq | ne | lt | le | gt | ge
deriving DecidableEq, Repr

/-- `enum NumberBase` of the source.  The constructors carry the member names of
the TypeScript enum; `NumberBase.value` carries the string values.  Note that in
the source the member `Roman` has the value `'roman'` while the member
`RomanLower` has the value `'ROMAN'`. -/
inductive NumberBase where
  | Dec | Hex | HexUpper | Roman | RomanLower
deriving DecidableEq, Repr

/-- The TypeScript string value of each `NumberBase` enum member, exactly as the
enum declaration assigns them. -/
def NumberBase.value : NumberBase → Str
  | .Dec => ("dec").data
  | .Hex => ("hex").data
  | .HexUpper => ("HEX").data
  | .Roman => ("roman").data
  | .RomanLower => ("ROMAN").data

/-- `enum ExpectedToken` of the source. -/
inductive ExpectedToken where
  | IDENTIFIER | COLON | CLOSE_BRACE | CLOSE_BRACKET | TAG_SPEC
  | COMPARISON_OP | NUMBER | OPTION | OPEN_BRACE | OPEN_BRACKET
  | EQUALS | EXCLAMATION | PLUS | MINUS | DASH | NUMBER_BASE | AT_SIGN
deriving DecidableEq, Repr

/-- `enum ParserContext` of the source. -/
inductive ParserContext where
  | COMPLETE | INCOMPLETE | INVALID
  | OUTSIDE_PLACEHOLDER | IN_PLACEHOLDER | IN_GLOBAL_SETTINGS
  | EXPECTING_IDENTIFIER | EXPECTING_COLON
  | EXPECTING_LANGUAGE_IDENTIFIER | EXPECTING_AFTER_LANGUAGE
  | EXPECTING_TAG_OR_SIZE_LIMIT | EXPECTING_TAG_ONLY | EXPECTING_TAG_IDENTIFIER
  | EXPECTING_SIZE_LIMIT
  | EXPECTING_NUMBER_LENGTH | EXPECTING_NUMBER_BASE
  | EXPECTING_SPECIAL_LENGTH | EXPECTING_SPECIAL_RANGE
  | EXPECTING_OPTION | EXPECTING_CLOSE_BRACE | EXPECTING_CLOSE_BRACKET
  | PARTIAL_SELECTOR | PARTIAL_NUMBER_GEN | PARTIAL_SPECIAL_GEN
deriving DecidableEq, Repr

/-- `interface SizeLimit`. -/
structure SizeLimit where
  op : CompareOperator
  value : Nat
deriving DecidableEq, Repr

/-- `Record<string, string>` of option keys to values, in insertion order. -/
abbrev Options := List (Str × Str)

/-- JS object assignment `options[key] = value`: replace in place when the key
exists, append otherwise. -/
def setOption : Options → Str → Str → Options
  | [], k, v => [(k, v)]
  | (k', v') :: rest, k, v =>
    if k' = k then (k, v) :: rest else (k', v') :: setOption rest k v

/-- `interface Selector`. -/
structure Selector where
  kind : Str
  language : Option Str
  includeTags : List Str
  excludeTags : List Str
  sizeLimit : Option SizeLimit
  options : Options
deriving DecidableEq, Repr

/-- `interface NumberGen`. -/
structure NumberGen where
  maxLength : Nat
  base : NumberBase
deriving DecidableEq, Repr

/-- `interface SpecialCharGen`. -/
structure SpecialCharGen where
  minLength : Nat
  maxLength : Nat
deriving DecidableEq, Repr

/-- `type PatternElement = Selector | NumberGen | SpecialCharGen`. -/
inductive PatternElement where
  | selector (s : Selector)
  | numberGen (g : NumberGen)
  | specialChar (g : SpecialCharGen)
deriving DecidableEq, Repr

/-- `interface GlobalSettings`. -/
structure GlobalSettings where
  language : Option Str
  includeTags : List Str
  excludeTags : List Str
  sizeLimit : Option SizeLimit
  options : Options
deriving DecidableEq, Repr

/-- `interface ParsedPattern`. -/
structure ParsedPattern where
  elements : List PatternElement
  globalSettings : Option GlobalSettings
  textChunks : List Str
deriving DecidableEq, Repr

/-! ## Cursor: the `input` / `pos` / `lastParsedToken` fields of the parser -/

structure Cursor where
  input : Str
  pos : Nat
  lastParsedToken : Option Str
deriving DecidableEq, Repr

namespace Cursor

/-- The unread part of the input, `input[pos..]`. -/
def rest (st : Cursor) : Str := st.input.drop st.pos

/-- `private isEof()`. -/
def isEof (st : Cursor) : Bool := st.input.length ≤ st.pos

/-- `private peek()`. -/
def peek (st : Cursor) : Option Char := st.rest.head?

/-- `private next()`: consume one character; on success record it as the last
parsed token. -/
def next (st : Cursor) : Option Char × Cursor :=
  match st.rest.head? with
  | Option.none => (Option.none, st)
  | some c => (some c, { st with pos := st.pos + 1, lastParsedToken := some [c] })

/-- `private match(expected)`. -/
def matchC (st : Cursor) (c : Char) : Bool :=
  match st.peek with
  | some c' => c' == c
  | Option.none => false

end Cursor

/-- Fallible computations of the parser.  A thrown TypeScript exception leaves
the mutated parser state behind, and the partial parser's catch blocks read that
state; the error value therefore carries the cursor at throw time together with
the message. -/
abbrev PRes (α : Type) := Except (String × Cursor) α

/-- `private expect(expected)`. -/
def expectC (st : Cursor) (c : Char) : PRes Cursor :=
  let (ch, st') := st.next
  if ch = some c then .ok st'
  else .error (("Expected a different character at position " ++ toString (st'.pos - 1)), st')

/-- `private skipWhitespace()`: consume the leading whitespace run; each
character goes through `next()`, so the last one becomes the last parsed
token. -/
def skipWhitespace (st : Cursor) : Cursor :=
  let ws := st.rest.takeWhile isWsChar
  match ws.getLast? with
  | Option.none => st
  | some c => { st with pos := st.pos + ws.length, lastParsedToken := some [c] }

/-- Decimal value of a digit run (`parseInt(result, 10)`). -/
def digitsToNat (ds : Str) : Nat :=
  ds.foldl (fun n c => 10 * n + (c.toNat - ('0').toNat)) 0

/-- `private parseNumber()`. -/
def parseNumber (st : Cursor) : PRes (Nat × Cursor) :=
  let ds := st.rest.takeWhile isDigitChar
  if ds.isEmpty then
    .error (("Expected number at position " ++ toString st.pos), st)
  else
    .ok (digitsToNat ds,
      { st with pos := st.pos + ds.length, lastParsedToken := some ds })

/-- `private parseIdentifier()`. -/
def parseIdentifier (st : Cursor) : PRes (Str × Cursor) :=
  match st.peek with
  | some c =>
    if isAlphaUnd c then
      let ident := c :: (st.input.drop (st.pos + 1)).takeWhile isAlnumUnd
      .ok (ident, { st with pos := st.pos + ident.length, lastParsedToken := some ident })
    else .error (("Expected identifier start at position " ++ toString st.pos), st)
  | Option.none => .error (("Expected identifier start at position " ++ toString st.pos), st)

/-- `private parseTag()`. -/
def parseTag (st : Cursor) : PRes (Str × Cursor) :=
  let t := st.rest.takeWhile isAlnumUnd
  if t.isEmpty then
    .error (("Empty tag at position " ++ toString st.pos), st)
  else
    .ok (t, { st with pos := st.pos + t.length, lastParsedToken := some t })

/-- Loop body of `private parseTags()`, fuel-indexed.  Each iteration consumes
the leading `+` or `-`, so `input.length + 1` fuel is never exhausted. -/
def parseTagsAux : Nat → Cursor → List Str → List Str →
    PRes ((List Str × List Str) × Cursor)
  | 0, st, inc, exc => .ok ((inc, exc), st)
  | fuel + 1, st, inc, exc =>
    match st.peek with
    | some '+' =>
      let st := (st.next).2
      match parseTag st with
      | .ok (t, st) => parseTagsAux fuel (skipWhitespace st) (inc ++ [t]) exc
      | .error e => .error e
    | some '-' =>
      let st := (st.next).2
      match parseTag st with
      | .ok (t, st) => parseTagsAux fuel (skipWhitespace st) inc (exc ++ [t])
      | .error e => .error e
    | _ => .ok ((inc, exc), st)

/-- `private parseTags()`. -/
def parseTags (st : Cursor) : PRes ((List Str × List Str) × Cursor) :=
  parseTagsAux (st.input.length + 1) st [] []

/-- `private parseComparisonOp()`. -/
def parseComparisonOp (st : Cursor) : PRes (CompareOperator × Cursor) :=
  if st.matchC '<' then
    let st := (st.next).2
    if st.matchC '=' then
      let st := (st.next).2
      .ok (.le, { st with lastParsedToken := some (("<=").data) })
    else .ok (.lt, { st with lastParsedToken := some (("<").data) })
  else if st.matchC '>' then
    let st := (st.next).2
    if st.matchC '=' then
      let st := (st.next).2
      .ok (.ge, { st with lastParsedToken := some ((">=").data) })
    else .ok (.gt, { st with lastParsedToken := some ((">").data) })
  else if st.matchC '=' then
    let st := (st.next).2
    if st.matchC '=' then
      let st := (st.next).2
      .ok (.eq, { st with lastParsedToken := some (("==").data) })
    else .error (("Expected double equals at position " ++ toString (st.pos - 1)), st)
  else if st.matchC '!' then
    let st := (st.next).2
    if st.matchC '=' then
      let st := (st.next).2
      .ok (.ne, { st with lastParsedToken := some (("!=").data) })
    else .error (("Expected not-equals at position " ++ toString (st.pos - 1)), st)
  else
    .error (("Expected comparison operator at position " ++ toString st.pos), st)

/-- `private parseSizeLimit()`. -/
def parseSizeLimit (st : Cursor) : PRes (SizeLimit × Cursor) :=
  match parseComparisonOp st with
  | .error e => .error e
  | .ok (op, st) =>
    let st := skipWhitespace st
    match parseNumber st with
    | .error e => .error e
    | .ok (value, st) => .ok (⟨op, value⟩, st)

/-- Loop body of `private parseOptions()`, fuel-indexed.  Each iteration
consumes at least the (nonempty) key identifier. -/
def parseOptionsAux : Nat → Cursor → Options → PRes (Options × Cursor)
  | 0, st, opts => .ok (opts, st)
  | fuel + 1, st, opts =>
    match parseIdentifier st with
    | .error e => .error e
    | .ok (key, st) =>
      match expectC st '=' with
      | .error e => .error e
      | .ok st =>
        let value := st.rest.takeWhile isAlnumUnd
        let st :=
          match value.getLast? with
          | Option.none => st
          | some c =>
            { st with pos := st.pos + value.length, lastParsedToken := some [c] }
        let opts := setOption opts key value
        if st.matchC ',' then
          parseOptionsAux fuel (skipWhitespace ((st.next).2)) opts
        else .ok (opts, st)

/-- `private parseOptions()`. -/
def parseOptions (st : Cursor) : PRes (Options × Cursor) :=
  parseOptionsAux (st.input.length + 1) st []

/-- `private parseShortNumberBase()`. -/
def parseShortNumberBase (st : Cursor) : PRes (NumberBase × Cursor) :=
  let (ch, st') := st.next
  match ch with
  | some 'd' => .ok (.Dec, st')
  | some 'x' => .ok (.Hex, st')
  | some 'r' => .ok (.RomanLower, st')
  | _ => .error (("Invalid short number base"), st')

/-- `private parseNumberBase()`: the long, case-sensitive base names.  The
mapping is exactly the `switch` of the source: `'roman'` maps to the member
`RomanLower` (whose enum value is the string `'ROMAN'`) and `'ROMAN'` maps to
the member `Roman` (whose enum value is the string `'roman'`). -/
def parseNumberBase (st : Cursor) : PRes (NumberBase × Cursor) :=
  match parseIdentifier st with
  | .error e => .error e
  | .ok (base, st) =>
    if base = ("dec").data then .ok (.Dec, st)
    else if base = ("hex").data then .ok (.Hex, st)
    else if base = ("HEX").data then .ok (.HexUpper, st)
    else if base = ("roman").data then .ok (.RomanLower, st)
    else if base = ("ROMAN").data then .ok (.Roman, st)
    else .error (("Invalid number base"), st)

end SlugKit

namespace SlugKit

/-- `private parseSelector()`. -/
def parseSelector (st : Cursor) : PRes (Selector × Cursor) :=
  match parseIdentifier st with
  | .error e => .error e
  | .ok (kind, st) =>
    let langRes : PRes (Option Str × Cursor) :=
      if st.matchC '@' then
        let st := (st.next).2
        match parseIdentifier st with
        | .error e => .error e
        | .ok (lang, st) => .ok (some lang, st)
      else .ok (Option.none, st)
    match langRes with
    | .error e => .error e
    | .ok (language, st) =>
      if st.matchC ':' then
        let st := (st.next).2
        let st := skipWhitespace st
        let tagsRes : PRes ((List Str × List Str) × Cursor) :=
          if st.matchC '+' || st.matchC '-' then
            match parseTags st with
            | .error e => .error e
            | .ok (tags, st) => .ok (tags, skipWhitespace st)
          else .ok (([], []), st)
        match tagsRes with
        | .error e => .error e
        | .ok ((includeTags, excludeTags), st) =>
          let slRes : PRes (Option SizeLimit × Cursor) :=
            match st.peek with
            | some c =>
              if isCompChar c then
                match parseSizeLimit st with
                | .error e => .error e
                | .ok (sl, st) => .ok (some sl, skipWhitespace st)
              else .ok (Option.none, st)
            | Option.none => .ok (Option.none, st)
          match slRes with
          | .error e => .error e
          | .ok (sizeLimit, st) =>
            let optRes : PRes (Options × Cursor) :=
              if st.matchC ',' then
                parseOptions (skipWhitespace ((st.next).2))
              else if includeTags.isEmpty && sizeLimit.isNone && !st.isEof
                  && !(st.matchC '}') then
                parseOptions st
              else .ok ([], st)
            match optRes with
            | .error e => .error e
            | .ok (options, st) =>
              .ok (⟨kind, language, includeTags, excludeTags, sizeLimit, options⟩, st)
      else
        .ok (⟨kind, language, [], [], Option.none, []⟩, st)

/-- `private parseNumberGen()` (the identifier `number` was already consumed by
`parseElement`). -/
def parseNumberGen (st : Cursor) : PRes (NumberGen × Cursor) :=
  if st.matchC ':' then
    let st := (st.next).2
    match parseNumber st with
    | .error e => .error e
    | .ok (maxLength, st) =>
      match st.peek with
      | some c =>
        if isShortBaseChar c then
          match parseShortNumberBase st with
          | .error e => .error e
          | .ok (base, st) => .ok (⟨maxLength, base⟩, st)
        else if st.matchC ',' then
          let st := skipWhitespace ((st.next).2)
          match parseNumberBase st with
          | .error e => .error e
          | .ok (base, st) => .ok (⟨maxLength, base⟩, st)
        else .ok (⟨maxLength, .Dec⟩, st)
      | Option.none => .ok (⟨maxLength, .Dec⟩, st)
  else .ok (⟨1, .Dec⟩, st)

/-- `private parseSpecialCharGen()` (the identifier `special` was already
consumed by `parseElement`). -/
def parseSpecialCharGen (st : Cursor) : PRes (SpecialCharGen × Cursor) :=
  if st.matchC ':' then
    let st := (st.next).2
    match parseNumber st with
    | .error e => .error e
    | .ok (minLength, st) =>
      if st.matchC '-' then
        let st := (st.next).2
        match parseNumber st with
        | .error e => .error e
        | .ok (maxLength, st) =>
          if maxLength < minLength then
            .error (("Invalid range: start cannot be greater than end"), st)
          else .ok (⟨minLength, maxLength⟩, st)
      else .ok (⟨minLength, minLength⟩, st)
  else .ok (⟨1, 1⟩, st)

/-- `private parseElement()`. -/
def parseElement (st : Cursor) : PRes (PatternElement × Cursor) :=
  match parseIdentifier st with
  | .error e => .error e
  | .ok (identifier, st) =>
    if identifier = ("number").data then
      match parseNumberGen st with
      | .error e => .error e
      | .ok (g, st) => .ok (.numberGen g, st)
    else if identifier = ("special").data then
      match parseSpecialCharGen st with
      | .error e => .error e
      | .ok (g, st) => .ok (.specialChar g, st)
    else
      -- `this.pos -= identifier.length`: rewind to before the identifier
      let st := { st with pos := st.pos - identifier.length }
      match parseSelector st with
      | .error e => .error e
      | .ok (s, st) => .ok (.selector s, st)

/-- `private parseGlobalSettings()`. -/
def parseGlobalSettings (st : Cursor) : PRes (GlobalSettings × Cursor) :=
  let langRes : PRes (Option Str × Cursor) :=
    if st.matchC '@' then
      let st := (st.next).2
      match parseIdentifier st with
      | .error e => .error e
      | .ok (lang, st) => .ok (some lang, skipWhitespace st)
    else .ok (Option.none, st)
  match langRes with
  | .error e => .error e
  | .ok (language, st) =>
    let tagsRes : PRes ((List Str × List Str) × Cursor) :=
      if st.matchC '+' || st.matchC '-' then
        match parseTags st with
        | .error e => .error e
        | .ok (tags, st) => .ok (tags, skipWhitespace st)
      else .ok (([], []), st)
    match tagsRes with
    | .error e => .error e
    | .ok ((includeTags, excludeTags), st) =>
      let slRes : PRes (Option SizeLimit × Cursor) :=
        match st.peek with
        | some c =>
          if isCompChar c then
            match parseSizeLimit st with
            | .error e => .error e
            | .ok (sl, st) => .ok (some sl, skipWhitespace st)
          else .ok (Option.none, st)
        | Option.none => .ok (Option.none, st)
      match slRes with
      | .error e => .error e
      | .ok (sizeLimit, st) =>
        let optRes : PRes (Options × Cursor) :=
          if st.matchC ',' then
            parseOptions (skipWhitespace ((st.next).2))
          else if includeTags.isEmpty && sizeLimit.isNone && !st.isEof
              && !(st.matchC ']') then
            parseOptions st
          else .ok ([], st)
        match optRes with
        | .error e => .error e
        | .ok (options, st) =>
          .ok (⟨language, includeTags, excludeTags, sizeLimit, options⟩, st)

/-- JS `input.slice(a, b)` for `0 ≤ a`, clamping as `slice` does. -/
def sliceStr (s : Str) (a b : Nat) : Str := (s.take b).drop a

/-- Accumulator of the main `parse()` loop: the local variables `elements`,
`textChunks`, `globalSettings`, `arbitraryStart`, `arbitraryEnd`. -/
structure ParseAcc where
  elements : List PatternElement
  textChunks : List Str
  globalSettings : Option GlobalSettings
  arbitraryStart : Nat
  arbitraryEnd : Nat
deriving DecidableEq, Repr

/-- The `while` loop of `public parse()`, fuel-indexed; every iteration consumes
at least one character, so fuel `input.length + 1` is never exhausted. -/
def parseLoop : Nat → Cursor → ParseAcc → PRes (ParseAcc × Cursor)
  | 0, st, _ => .error (("out of fuel"), st)
  | fuel + 1, st, acc =>
    if st.isEof then .ok (acc, st)
    else if st.matchC '{' then
      let acc := { acc with
        textChunks := acc.textChunks ++ [sliceStr st.input acc.arbitraryStart st.pos] }
      let st := (st.next).2
      match parseElement st with
      | .error e => .error e
      | .ok (element, st) =>
        let acc := { acc with elements := acc.elements ++ [element] }
        match expectC st '\x7d' with
        | .error e => .error e
        | .ok st => parseLoop fuel st { acc with arbitraryStart := st.pos }
    else if st.matchC '[' then
      let acc := { acc with arbitraryEnd := st.pos }
      let st := (st.next).2
      match parseGlobalSettings st with
      | .error e => .error e
      | .ok (gs, st) =>
        match expectC st ']' with
        | .error e => .error e
        | .ok st =>
          let st := skipWhitespace st
          if st.isEof then .ok ({ acc with globalSettings := some gs }, st)
          else
            .error (("Unexpected character after global settings at position "
              ++ toString st.pos), st)
    else if st.matchC '\\' then
      let st := (st.next).2
      if st.isEof then
        .error (("Unexpected end of pattern after escape character at position "
          ++ toString (st.pos - 1)), st)
      else
        let (ch, st) := st.next
        if ch = some '\x7b' || ch = some '\x7d' || ch = some '\\' then
          parseLoop fuel st acc
        else
          .error (("Invalid escaped character at position " ++ toString (st.pos - 1)), st)
    else if st.matchC '\x7d' then
      .error (("Unmatched closing brace at position " ++ toString st.pos), st)
    else if st.matchC ']' then
      .error (("Unmatched closing bracket at position " ++ toString st.pos), st)
    else parseLoop fuel ((st.next).2) acc

namespace PatternParser

/-- `public static parse(pattern)`. -/
def parse (input : Str) : Except String ParsedPattern :=
  let st : Cursor := ⟨input, 0, Option.none⟩
  match parseLoop (input.length + 1) st ⟨[], [], Option.none, 0, input.length⟩ with
  | .error (msg, _) => .error msg
  | .ok (acc, _) =>
    let textChunks :=
      if acc.textChunks.length = acc.elements.length then
        acc.textChunks ++ [sliceStr input acc.arbitraryStart acc.arbitraryEnd]
      else acc.textChunks
    .ok ⟨acc.elements, acc.globalSettings, textChunks⟩

/-- `public static isComplete(pattern)`. -/
def isComplete (input : Str) : Bool :=
  match parse input with
  | .ok _ => true
  | .error _ => false

/-- `public static validate(pattern)`. -/
def validate (input : Str) : Bool :=
  match parse input with
  | .ok _ => true
  | .error _ => false

end PatternParser

end SlugKit

namespace SlugKit

/-! ## Partial parsing: context tracking and the resumable parser -/

/-- The context-tracking fields of the parser: `currentContext`,
`contextStack` (pushed, never read back by the source), and the cursor. -/
structure PState where
  ctx : ParserContext
  stack : List ParserContext
  cur : Cursor
deriving DecidableEq, Repr

/-- `private pushContext(context)`. -/
def PState.pushContext (ps : PState) (c : ParserContext) : PState :=
  { ps with stack := ps.stack ++ [ps.ctx], ctx := c }

/-- `private setContext(context)`. -/
def PState.setContext (ps : PState) (c : ParserContext) : PState :=
  { ps with ctx := c }

/-- `Partial<Selector>`: the partially constructed selector element. -/
structure PartialSelector where
  kind : Str
  language : Option Str
  includeTags : Option (List Str)
  excludeTags : Option (List Str)
  sizeLimit : Option SizeLimit
  options : Option Options
deriving DecidableEq, Repr

/-- `Partial<GlobalSettings>`. -/
structure PartialGlobalSettings where
  language : Option Str
  includeTags : Option (List Str)
  excludeTags : Option (List Str)
  sizeLimit : Option SizeLimit
  options : Option Options
deriving DecidableEq, Repr

/-- The `partialElement: any` field of `ParserContextInfo`: one of the four
partially constructed values the source stores there.  The number and special
generators are created with all fields initialized, so they are not `Partial`. -/
inductive PartialElement where
  | selector (s : PartialSelector)
  | numberGen (g : NumberGen)
  | specialGen (g : SpecialCharGen)
  | globalSettings (g : PartialGlobalSettings)
deriving DecidableEq, Repr

/-- `interface ParserContextInfo`. -/
structure ParserContextInfo where
  context : ParserContext
  position : Nat
  parsedSoFar : Str
  expectedNext : List ExpectedToken
  lastParsedToken : Option Str
  isValid : Bool
  errorMessage : Option String
  partialElement : Option PartialElement
deriving DecidableEq, Repr

/-- `private getExpectedNext(context)`: the pure state-to-tokens table. -/
def getExpectedNext : ParserContext → List ExpectedToken
  | .EXPECTING_IDENTIFIER => [.IDENTIFIER, .CLOSE_BRACE]
  | .EXPECTING_COLON => [.COLON]
  | .EXPECTING_LANGUAGE_IDENTIFIER => [.IDENTIFIER]
  | .EXPECTING_AFTER_LANGUAGE => [.COLON, .CLOSE_BRACE]
  | .EXPECTING_TAG_OR_SIZE_LIMIT => [.TAG_SPEC, .COMPARISON_OP, .OPTION, .CLOSE_BRACE]
  | .EXPECTING_TAG_ONLY => [.TAG_SPEC, .OPTION, .CLOSE_BRACE]
  | .EXPECTING_TAG_IDENTIFIER => [.IDENTIFIER]
  | .EXPECTING_SIZE_LIMIT => [.NUMBER, .CLOSE_BRACE]
  | .EXPECTING_NUMBER_LENGTH => [.NUMBER]
  | .EXPECTING_NUMBER_BASE => [.NUMBER_BASE, .CLOSE_BRACE]
  | .EXPECTING_SPECIAL_LENGTH => [.NUMBER]
  | .EXPECTING_SPECIAL_RANGE => [.NUMBER, .CLOSE_BRACE]
  | .EXPECTING_OPTION => [.IDENTIFIER, .CLOSE_BRACE]
  | .EXPECTING_CLOSE_BRACE => [.CLOSE_BRACE]
  | .EXPECTING_CLOSE_BRACKET => [.CLOSE_BRACKET]
  | .PARTIAL_SELECTOR => [.AT_SIGN, .COLON, .CLOSE_BRACE]
  | .PARTIAL_NUMBER_GEN => [.COLON]
  | .PARTIAL_SPECIAL_GEN => [.COLON, .CLOSE_BRACE]
  | .IN_PLACEHOLDER => [.IDENTIFIER, .CLOSE_BRACE]
  | .IN_GLOBAL_SETTINGS => [.IDENTIFIER, .TAG_SPEC, .COMPARISON_OP, .CLOSE_BRACKET]
  | _ => []

/-- `private createContextInfo(errorMessage?, partialElement?)`. -/
def createContextInfo (ps : PState) (errorMessage : Option String)
    (partialElement : Option PartialElement) : ParserContextInfo :=
  { context := ps.ctx
    position := ps.cur.pos
    parsedSoFar := ps.cur.input.take ps.cur.pos
    expectedNext := getExpectedNext ps.ctx
    lastParsedToken := ps.cur.lastParsedToken
    isValid := errorMessage.isNone
    errorMessage := errorMessage
    partialElement := partialElement }

/-- Loop body of `private parsePartialTags()`, fuel-indexed.  A `Sum.inl`
result is the context info recorded before the source returns `null`; a
`Sum.inr` result is the returned tag pair with the state to continue from. -/
def parsePartialTagsAux : Nat → PState → List Str → List Str →
    (ParserContextInfo ⊕ ((List Str × List Str) × PState))
  | 0, ps, inc, exc => .inr ((inc, exc), ps)
  | fuel + 1, ps, inc, exc =>
    match ps.cur.peek with
    | some '+' =>
      let ps := { ps with cur := (ps.cur.next).2 }
      if ps.cur.isEof then
        .inl (createContextInfo (ps.setContext .EXPECTING_TAG_IDENTIFIER)
          Option.none Option.none)
      else
        match parseTag ps.cur with
        | .ok (t, cur) =>
          parsePartialTagsAux fuel { ps with cur := skipWhitespace cur } (inc ++ [t]) exc
        | .error (_, cur) =>
          .inl (createContextInfo
            (({ ps with cur := cur }).setContext .EXPECTING_TAG_IDENTIFIER)
            Option.none Option.none)
    | some '-' =>
      let ps := { ps with cur := (ps.cur.next).2 }
      if ps.cur.isEof then
        .inl (createContextInfo (ps.setContext .EXPECTING_TAG_IDENTIFIER)
          Option.none Option.none)
      else
        match parseTag ps.cur with
        | .ok (t, cur) =>
          parsePartialTagsAux fuel { ps with cur := skipWhitespace cur } inc (exc ++ [t])
        | .error (_, cur) =>
          .inl (createContextInfo
            (({ ps with cur := cur }).setContext .EXPECTING_TAG_IDENTIFIER)
            Option.none Option.none)
    | _ => .inr ((inc, exc), ps)

/-- `private parsePartialTags()`. -/
def parsePartialTags (ps : PState) :
    (ParserContextInfo ⊕ ((List Str × List Str) × PState)) :=
  parsePartialTagsAux (ps.cur.input.length + 1) ps [] []

/-- The tag-merging statements after a size limit (`if includeTags push else
assign`; a present-but-empty list is truthy in JS, so `push` runs for it). -/
def PartialSelector.mergeTags (sel : PartialSelector) (inc exc : List Str) :
    PartialSelector :=
  { sel with
    includeTags :=
      match sel.includeTags with
      | some l => some (l ++ inc)
      | Option.none => some inc
    excludeTags :=
      match sel.excludeTags with
      | some l => some (l ++ exc)
      | Option.none => some exc }

/-- Options section and trailing `createContextInfo` of
`private parsePartialSelector()`. -/
def partialSelectorOptions (sel : PartialSelector) (ps : PState) : ParserContextInfo :=
  if ps.cur.matchC ',' then
    let cur := skipWhitespace ((ps.cur.next).2)
    match parseOptions cur with
    | .ok (opts, cur) =>
      createContextInfo { ps with cur := cur } Option.none
        (some (.selector { sel with options := some opts }))
    | .error (_, cur) =>
      createContextInfo (({ ps with cur := cur }).setContext .EXPECTING_OPTION)
        Option.none (some (.selector sel))
  else
    createContextInfo ps Option.none (some (.selector sel))

/-- Size-limit section of `private parsePartialSelector()`, including the tag
list that may follow the size limit.  The source wraps its `parsePartialTags`
call in a catch setting `EXPECTING_TAG_ONLY`, but `parsePartialTags` handles
all its errors internally and never throws, so that catch is unreachable. -/
def partialSelectorSizeLimit (sel : PartialSelector) (ps : PState) : ParserContextInfo :=
  match ps.cur.peek with
  | some c =>
    if isCompChar c then
      match parseSizeLimit ps.cur with
      | .error (_, cur) =>
        createContextInfo (({ ps with cur := cur }).setContext .EXPECTING_SIZE_LIMIT)
          Option.none (some (.selector sel))
      | .ok (sl, cur) =>
        let sel := { sel with sizeLimit := some sl }
        let ps := { ps with cur := cur }
        if ps.cur.isEof then
          createContextInfo (ps.setContext .EXPECTING_TAG_ONLY)
            Option.none (some (.selector sel))
        else if ps.cur.matchC '+' || ps.cur.matchC '-' then
          match parsePartialTags ps with
          | .inl ci => ci
          | .inr ((inc, exc), ps) =>
            partialSelectorOptions (sel.mergeTags inc exc) ps
        else partialSelectorOptions sel ps
    else partialSelectorOptions sel ps
  | Option.none => partialSelectorOptions sel ps

/-- Tag section of `private parsePartialSelector()` after the colon (the
catch around `parsePartialTags` is unreachable, as above). -/
def partialSelectorBody (sel : PartialSelector) (ps : PState) : ParserContextInfo :=
  if ps.cur.matchC '+' || ps.cur.matchC '-' then
    match parsePartialTags ps with
    | .inl ci => ci
    | .inr ((inc, exc), ps) =>
      partialSelectorSizeLimit
        { sel with includeTags := some inc, excludeTags := some exc } ps
  else partialSelectorSizeLimit sel ps

/-- The part of `private parsePartialSelector()` after the optional language:
the eof check, then the `:` selector body, then the trailing info. -/
def partialSelectorAfterLang (sel : PartialSelector) (ps : PState) : ParserContextInfo :=
  if ps.cur.isEof then
    createContextInfo ps Option.none (some (.selector sel))
  else if ps.cur.matchC ':' then
    let ps := { ps with cur := skipWhitespace ((ps.cur.next).2) }
    if ps.cur.isEof then
      createContextInfo (ps.setContext .EXPECTING_TAG_OR_SIZE_LIMIT)
        Option.none (some (.selector sel))
    else partialSelectorBody sel ps
  else
    createContextInfo ps Option.none (some (.selector sel))

/-- `private parsePartialSelector(kind)`. -/
def parsePartialSelector (kind : Str) (ps : PState) : ParserContextInfo :=
  let sel : PartialSelector := ⟨kind, Option.none, Option.none, Option.none,
    Option.none, Option.none⟩
  if ps.cur.isEof then
    createContextInfo ps Option.none (some (.selector sel))
  else if ps.cur.matchC '@' then
    let ps := { ps with cur := (ps.cur.next).2 }
    if ps.cur.isEof then
      createContextInfo (ps.setContext .EXPECTING_LANGUAGE_IDENTIFIER)
        Option.none (some (.selector sel))
    else
      match parseIdentifier ps.cur with
      | .error (_, cur) =>
        createContextInfo
          (({ ps with cur := cur }).setContext .EXPECTING_LANGUAGE_IDENTIFIER)
          Option.none (some (.selector sel))
      | .ok (lang, cur) =>
        let sel := { sel with language := some lang }
        let ps := { ps with cur := cur }
        if ps.cur.isEof then
          createContextInfo (ps.setContext .EXPECTING_AFTER_LANGUAGE)
            Option.none (some (.selector sel))
        else partialSelectorAfterLang sel ps
  else partialSelectorAfterLang sel ps

/-- `private parsePartialNumberGen()`.  The catch around
`parseShortNumberBase` ("continue without base") is unreachable because the
short-base branch is guarded by the `[dxr]` peek. -/
def parsePartialNumberGen (ps : PState) : ParserContextInfo :=
  let g : NumberGen := ⟨1, .Dec⟩
  if ps.cur.isEof then
    createContextInfo ps Option.none (some (.numberGen g))
  else if ps.cur.matchC ':' then
    let ps := { ps with cur := (ps.cur.next).2 }
    if ps.cur.isEof then
      createContextInfo (ps.setContext .EXPECTING_NUMBER_LENGTH)
        Option.none (some (.numberGen g))
    else
      match parseNumber ps.cur with
      | .error (_, cur) =>
        createContextInfo (({ ps with cur := cur }).setContext .EXPECTING_NUMBER_LENGTH)
          Option.none (some (.numberGen g))
      | .ok (len, cur) =>
        let g : NumberGen := { g with maxLength := len }
        let ps := { ps with cur := cur }
        if ps.cur.isEof then
          createContextInfo (ps.setContext .EXPECTING_NUMBER_BASE)
            Option.none (some (.numberGen g))
        else
          match ps.cur.peek with
          | some c =>
            if isShortBaseChar c then
              match parseShortNumberBase ps.cur with
              | .ok (b, cur) =>
                createContextInfo { ps with cur := cur } Option.none
                  (some (.numberGen { g with base := b }))
              | .error (_, cur) =>
                createContextInfo { ps with cur := cur } Option.none
                  (some (.numberGen g))
            else if ps.cur.matchC ',' then
              let cur := skipWhitespace ((ps.cur.next).2)
              match parseNumberBase cur with
              | .ok (b, cur) =>
                createContextInfo { ps with cur := cur } Option.none
                  (some (.numberGen { g with base := b }))
              | .error (_, cur) =>
                createContextInfo
                  (({ ps with cur := cur }).setContext .EXPECTING_OPTION)
                  Option.none (some (.numberGen g))
            else createContextInfo ps Option.none (some (.numberGen g))
          | Option.none => createContextInfo ps Option.none (some (.numberGen g))
  else createContextInfo ps Option.none (some (.numberGen g))

/-- `private parsePartialSpecialGen()`. -/
def parsePartialSpecialGen (ps : PState) : ParserContextInfo :=
  let g : SpecialCharGen := ⟨1, 1⟩
  if ps.cur.isEof then
    createContextInfo ps Option.none (some (.specialGen g))
  else if ps.cur.matchC ':' then
    let ps := { ps with cur := (ps.cur.next).2 }
    if ps.cur.isEof then
      createContextInfo (ps.setContext .EXPECTING_SPECIAL_LENGTH)
        Option.none (some (.specialGen g))
    else
      match parseNumber ps.cur with
      | .error (_, cur) =>
        createContextInfo
          (({ ps with cur := cur }).setContext .EXPECTING_SPECIAL_LENGTH)
          Option.none (some (.specialGen g))
      | .ok (n, cur) =>
        let g : SpecialCharGen := ⟨n, n⟩
        let ps := { ps with cur := cur }
        if ps.cur.isEof then
          createContextInfo ps Option.none (some (.specialGen g))
        else if ps.cur.matchC '-' then
          let ps := { ps with cur := (ps.cur.next).2 }
          if ps.cur.isEof then
            createContextInfo (ps.setContext .EXPECTING_SPECIAL_RANGE)
              Option.none (some (.specialGen g))
          else
            match parseNumber ps.cur with
            | .error (_, cur) =>
              createContextInfo
                (({ ps with cur := cur }).setContext .EXPECTING_SPECIAL_RANGE)
                Option.none (some (.specialGen g))
            | .ok (m, cur) =>
              createContextInfo { ps with cur := cur } Option.none
                (some (.specialGen { g with maxLength := m }))
        else createContextInfo ps Option.none (some (.specialGen g))
  else createContextInfo ps Option.none (some (.specialGen g))

end SlugKit

namespace SlugKit

/-- Tag merging after a size limit in `private parsePartialGlobalSettings()`. -/
def PartialGlobalSettings.mergeTags (g : PartialGlobalSettings) (inc exc : List Str) :
    PartialGlobalSettings :=
  { g with
    includeTags :=
      match g.includeTags with
      | some l => some (l ++ inc)
      | Option.none => some inc
    excludeTags :=
      match g.excludeTags with
      | some l => some (l ++ exc)
      | Option.none => some exc }

/-- Options section and trailing `createContextInfo` of
`private parsePartialGlobalSettings()`. -/
def partialGlobalOptions (g : PartialGlobalSettings) (ps : PState) : ParserContextInfo :=
  if ps.cur.matchC ',' then
    let cur := skipWhitespace ((ps.cur.next).2)
    match parseOptions cur with
    | .ok (opts, cur) =>
      createContextInfo { ps with cur := cur } Option.none
        (some (.globalSettings { g with options := some opts }))
    | .error (_, cur) =>
      createContextInfo (({ ps with cur := cur }).setContext .EXPECTING_OPTION)
        Option.none (some (.globalSettings g))
  else
    createContextInfo ps Option.none (some (.globalSettings g))

/-- Size-limit section of `private parsePartialGlobalSettings()` (its catches
around `parsePartialTags` are unreachable, as in the selector case). -/
def partialGlobalSizeLimit (g : PartialGlobalSettings) (ps : PState) : ParserContextInfo :=
  match ps.cur.peek with
  | some c =>
    if isCompChar c then
      match parseSizeLimit ps.cur with
      | .error (_, cur) =>
        createContextInfo (({ ps with cur := cur }).setContext .EXPECTING_SIZE_LIMIT)
          Option.none (some (.globalSettings g))
      | .ok (sl, cur) =>
        let g := { g with sizeLimit := some sl }
        let ps := { ps with cur := cur }
        if ps.cur.isEof then
          createContextInfo (ps.setContext .EXPECTING_TAG_ONLY)
            Option.none (some (.globalSettings g))
        else if ps.cur.matchC '+' || ps.cur.matchC '-' then
          match parsePartialTags ps with
          | .inl ci => ci
          | .inr ((inc, exc), ps) =>
            partialGlobalOptions (g.mergeTags inc exc) ps
        else partialGlobalOptions g ps
    else partialGlobalOptions g ps
  | Option.none => partialGlobalOptions g ps

/-- Tag section of `private parsePartialGlobalSettings()`. -/
def partialGlobalBody (g : PartialGlobalSettings) (ps : PState) : ParserContextInfo :=
  if ps.cur.matchC '+' || ps.cur.matchC '-' then
    match parsePartialTags ps with
    | .inl ci => ci
    | .inr ((inc, exc), ps) =>
      partialGlobalSizeLimit
        { g with includeTags := some inc, excludeTags := some exc } ps
  else partialGlobalSizeLimit g ps

/-- `private parsePartialGlobalSettings()`. -/
def parsePartialGlobalSettings (ps : PState) : ParserContextInfo :=
  let g : PartialGlobalSettings := ⟨Option.none, Option.none, Option.none,
    Option.none, Option.none⟩
  if ps.cur.isEof then
    createContextInfo ps Option.none (some (.globalSettings g))
  else if ps.cur.matchC '@' then
    let ps := { ps with cur := (ps.cur.next).2 }
    if ps.cur.isEof then
      createContextInfo (ps.setContext .EXPECTING_IDENTIFIER)
        Option.none (some (.globalSettings g))
    else
      match parseIdentifier ps.cur with
      | .error (_, cur) =>
        createContextInfo (({ ps with cur := cur }).setContext .EXPECTING_IDENTIFIER)
          Option.none (some (.globalSettings g))
      | .ok (lang, cur) =>
        partialGlobalBody { g with language := some lang } { ps with cur := cur }
  else partialGlobalBody g ps

/-- `private parsePartialElement()`.  The catch of the source also covers the
dispatched `parsePartial*` calls, but those handle their errors internally, so
only a failing `parseIdentifier` reaches it. -/
def parsePartialElement (ps : PState) : ParserContextInfo :=
  if ps.cur.isEof then
    createContextInfo (ps.setContext .EXPECTING_IDENTIFIER) Option.none Option.none
  else
    match parseIdentifier ps.cur with
    | .error (_, cur) =>
      createContextInfo (({ ps with cur := cur }).setContext .EXPECTING_IDENTIFIER)
        Option.none Option.none
    | .ok (identifier, cur) =>
      let ps := { ps with cur := cur }
      if identifier = ("number").data then
        parsePartialNumberGen (ps.setContext .PARTIAL_NUMBER_GEN)
      else if identifier = ("special").data then
        parsePartialSpecialGen (ps.setContext .PARTIAL_SPECIAL_GEN)
      else
        parsePartialSelector identifier (ps.setContext .PARTIAL_SELECTOR)

/-- Loop of `private parsePartialInternal()`, fuel-indexed.  A `some` result is
the `partialContext` recorded inside the first `{…}` or `[…]` construct (the
source always records one there); `none` means the loop ran to the end of the
input without meeting such a construct. -/
def parsePartialInternal : Nat → PState → (Option ParserContextInfo × PState)
  | 0, ps => (Option.none, ps)
  | fuel + 1, ps =>
    if ps.cur.isEof then (Option.none, ps)
    else if ps.cur.matchC '\x7b' then
      let ps := ps.pushContext .IN_PLACEHOLDER
      let ps := { ps with cur := (ps.cur.next).2 }
      (some (parsePartialElement ps), ps)
    else if ps.cur.matchC '[' then
      let ps := ps.pushContext .IN_GLOBAL_SETTINGS
      let ps := { ps with cur := (ps.cur.next).2 }
      (some (parsePartialGlobalSettings ps), ps)
    else if ps.cur.matchC '\\' then
      let ps := { ps with cur := (ps.cur.next).2 }
      if ps.cur.isEof then parsePartialInternal fuel ps
      else parsePartialInternal fuel { ps with cur := (ps.cur.next).2 }
    else parsePartialInternal fuel { ps with cur := (ps.cur.next).2 }

namespace PatternParser

/-- `public parsePartial(pattern)` / `public static parsePartial(pattern)`.
The source wraps `parsePartialInternal` in a try/catch producing a context
info with `isValid = false`, but every throwing call under it is already
wrapped in a catch, so that branch is unreachable and the computation is
total. -/
def parsePartial (input : Str) : ParserContextInfo :=
  let ps : PState := ⟨.OUTSIDE_PLACEHOLDER, [], ⟨input, 0, Option.none⟩⟩
  match parsePartialInternal (input.length + 1) ps with
  | (some ci, _) => ci
  | (Option.none, ps) => createContextInfo ps Option.none Option.none

/-- `public static getValidPrefix(pattern)`. -/
def getValidPrefix (input : Str) : Str :=
  if isComplete input then input
  else (parsePartial input).parsedSoFar

/-- `public static getExpectedNext(pattern)`. -/
def getExpectedNextOfPattern (input : Str) : List ExpectedToken :=
  (parsePartial input).expectedNext

end PatternParser

end SlugKit

namespace SlugKit

/-- Every context descriptor the partial parser can produce is benign: it is
valid, carries no error message, and its `parsedSoFar` is a take-prefix of the
input. -/
def BenignInfo (input : Str) (ci : ParserContextInfo) : Prop :=
  ci.isValid = true ∧ ci.errorMessage = Option.none ∧
  ∃ n, ci.parsedSoFar = input.take n

end SlugKit

namespace SlugKit

/-! ## Twin-input relations for the locality of the partial parser -/

/-- Cursors at the same position, with the same last token, over the two
inputs `u ++ z :: t` and `u ++ [z]`; the position is still inside `u`, and the
closer `z` does not occur in the unread part of `u`. -/
structure TwinSt (u t : Str) (z : Char) (st₁ st₂ : Cursor) : Prop where
  input₁ : st₁.input = u ++ z :: t
  input₂ : st₂.input = u ++ [z]
  posEq : st₁.pos = st₂.pos
  ltEq : st₁.lastParsedToken = st₂.lastParsedToken
  posLe : st₂.pos ≤ u.length
  zNot : z ∉ u.drop st₂.pos

/-- Like `TwinSt` but the position may sit one past the closer (reached only
by an `expect` that consumed the closer and threw). -/
structure TwinStW (u t : Str) (z : Char) (st₁ st₂ : Cursor) : Prop where
  input₁ : st₁.input = u ++ z :: t
  input₂ : st₂.input = u ++ [z]
  posEq : st₁.pos = st₂.pos
  ltEq : st₁.lastParsedToken = st₂.lastParsedToken
  posLe : st₂.pos ≤ u.length + 1

/-- The closing character of the first construct: `}` for a placeholder, `]`
for a global-settings block. -/
def IsCloser (z : Char) : Prop := z = '\x7d' ∨ z = ']'

/-- Relation between the results of one fallible parsing step run on the two
twin cursors: the same value or message comes out, and the cursors stay
twinned (a post-error cursor may sit just past the closer). -/
def OkTwin (u t : Str) (z : Char) {α : Type} (r₁ r₂ : PRes (α × Cursor)) : Prop :=
  (∀ a st₁', r₁ = .ok (a, st₁') → ∃ st₂', r₂ = .ok (a, st₂') ∧ TwinSt u t z st₁' st₂') ∧
  (∀ m st₁', r₁ = .error (m, st₁') → ∃ st₂', r₂ = .error (m, st₂') ∧ TwinStW u t z st₁' st₂')

/-- Like `OkTwin` for steps returning a bare cursor. -/
def CurTwin (u t : Str) (z : Char) (r₁ r₂ : PRes Cursor) : Prop :=
  (∀ st₁', r₁ = .ok st₁' → ∃ st₂', r₂ = .ok st₂' ∧ TwinSt u t z st₁' st₂') ∧
  (∀ m st₁', r₁ = .error (m, st₁') → ∃ st₂', r₂ = .error (m, st₂') ∧ TwinStW u t z st₁' st₂')

structure PTwin (u t : Str) (z : Char) (ps₁ ps₂ : PState) : Prop where
  ctxEq : ps₁.ctx = ps₂.ctx
  stackEq : ps₁.stack = ps₂.stack
  cur : TwinSt u t z ps₁.cur ps₂.cur

structure PTwinW (u t : Str) (z : Char) (ps₁ ps₂ : PState) : Prop where
  ctxEq : ps₁.ctx = ps₂.ctx
  stackEq : ps₁.stack = ps₂.stack
  cur : TwinStW u t z ps₁.cur ps₂.cur

/-- Equal context descriptors with a position bound: what every stage of the
partial parse of the two twin inputs produces. -/
def InfoTwin (u : Str) (ci₁ ci₂ : ParserContextInfo) : Prop :=
  ci₁ = ci₂ ∧ ci₁.position ≤ u.length + 1

/-- Relation between the results of the partial tag loop on the two twin
states. -/
def TagsTwin (u t : Str) (z : Char)
    (r₁ r₂ : ParserContextInfo ⊕ ((List Str × List Str) × PState)) : Prop :=
  (∀ ci, r₁ = .inl ci → ∃ ci', r₂ = .inl ci' ∧ InfoTwin u ci ci') ∧
  (∀ p ps₁', r₁ = .inr (p, ps₁') → ∃ ps₂', r₂ = .inr (p, ps₂') ∧ PTwin u t z ps₁' ps₂')

end SlugKit


/-!
## Verification helpers

Invariant lemmas used by the claim theorems below: the cursor's `input` field
is never changed by any parsing function, every context descriptor produced by
the partial parser is valid with a take-prefix `parsedSoFar`, the main parse
loop keeps one text chunk per element, and every special-character generator it
emits satisfies `minLength ≤ maxLength`.
-/


namespace SlugKit

theorem next_input (st : Cursor) : (st.next).2.input = st.input := by
  unfold Cursor.next
  split <;> rfl

theorem next_pair_input {st : Cursor} {ch : Option Char} {st' : Cursor}
    (h : st.next = (ch, st')) : st'.input = st.input := by
  have h2 := congrArg Prod.snd h
  dsimp only at h2
  rw [← h2]
  exact next_input st

theorem skipWhitespace_input (st : Cursor) : (skipWhitespace st).input = st.input := by
  unfold skipWhitespace
  dsimp only
  split <;> rfl

theorem expectC_ok_input {st : Cursor} {c : Char} {st' : Cursor}
    (h : expectC st c = .ok st') : st'.input = st.input := by
  unfold expectC at h
  repeat' split at h
  all_goals first
    | exact Except.noConfusion h
    | (injection h with h1
       subst h1
       exact next_pair_input (by assumption))

theorem expectC_err_input {st : Cursor} {c : Char} {m : String} {st' : Cursor}
    (h : expectC st c = .error (m, st')) : st'.input = st.input := by
  unfold expectC at h
  repeat' split at h
  all_goals first
    | exact Except.noConfusion h
    | (injection h with h1
       have hs : _ = st' := congrArg Prod.snd h1
       subst hs
       exact next_pair_input (by assumption))

theorem parseNumber_ok_input {st : Cursor} {n : Nat} {st' : Cursor}
    (h : parseNumber st = .ok (n, st')) : st'.input = st.input := by
  unfold parseNumber at h
  dsimp only at h
  split at h
  · exact Except.noConfusion h
  · injection h with h1
    have hs : _ = st' := congrArg Prod.snd h1
    subst hs
    rfl

theorem parseNumber_err_input {st : Cursor} {m : String} {st' : Cursor}
    (h : parseNumber st = .error (m, st')) : st'.input = st.input := by
  unfold parseNumber at h
  dsimp only at h
  split at h
  · injection h with h1
    have hs : _ = st' := congrArg Prod.snd h1
    subst hs
    rfl
  · exact Except.noConfusion h

theorem parseIdentifier_ok_input {st : Cursor} {x : Str} {st' : Cursor}
    (h : parseIdentifier st = .ok (x, st')) : st'.input = st.input := by
  unfold parseIdentifier at h
  repeat' split at h
  all_goals first
    | exact Except.noConfusion h
    | (injection h with h1
       have hs : _ = st' := congrArg Prod.snd h1
       subst hs
       rfl)

theorem parseIdentifier_err_input {st : Cursor} {m : String} {st' : Cursor}
    (h : parseIdentifier st = .error (m, st')) : st'.input = st.input := by
  unfold parseIdentifier at h
  repeat' split at h
  all_goals first
    | exact Except.noConfusion h
    | (injection h with h1
       have hs : _ = st' := congrArg Prod.snd h1
       subst hs
       rfl)

theorem parseTag_ok_input {st : Cursor} {x : Str} {st' : Cursor}
    (h : parseTag st = .ok (x, st')) : st'.input = st.input := by
  unfold parseTag at h
  dsimp only at h
  split at h
  · exact Except.noConfusion h
  · injection h with h1
    have hs : _ = st' := congrArg Prod.snd h1
    subst hs
    rfl

theorem parseTag_err_input {st : Cursor} {m : String} {st' : Cursor}
    (h : parseTag st = .error (m, st')) : st'.input = st.input := by
  unfold parseTag at h
  dsimp only at h
  split at h
  · injection h with h1
    have hs : _ = st' := congrArg Prod.snd h1
    subst hs
    rfl
  · exact Except.noConfusion h

theorem parseComparisonOp_ok_input {st : Cursor} {op : CompareOperator} {st' : Cursor}
    (h : parseComparisonOp st = .ok (op, st')) : st'.input = st.input := by
  unfold parseComparisonOp at h
  repeat' first
    | split at h
    | dsimp only at h
  all_goals first
    | exact Except.noConfusion h
    | (injection h with h1
       have hs : _ = st' := congrArg Prod.snd h1
       subst hs
       simp [next_input])

theorem parseComparisonOp_err_input {st : Cursor} {m : String} {st' : Cursor}
    (h : parseComparisonOp st = .error (m, st')) : st'.input = st.input := by
  unfold parseComparisonOp at h
  repeat' first
    | split at h
    | dsimp only at h
  all_goals first
    | exact Except.noConfusion h
    | (injection h with h1
       have hs : _ = st' := congrArg Prod.snd h1
       subst hs
       simp [next_input])

theorem parseSizeLimit_ok_input {st : Cursor} {sl : SizeLimit} {st' : Cursor}
    (h : parseSizeLimit st = .ok (sl, st')) : st'.input = st.input := by
  unfold parseSizeLimit at h
  split at h
  · exact Except.noConfusion h
  case _ op st1 hop =>
    dsimp only at h
    split at h
    · exact Except.noConfusion h
    case _ v st2 hnum =>
      injection h with h1
      have hs : _ = st' := congrArg Prod.snd h1
      subst hs
      rw [parseNumber_ok_input hnum, skipWhitespace_input, parseComparisonOp_ok_input hop]

theorem parseSizeLimit_err_input {st : Cursor} {m : String} {st' : Cursor}
    (h : parseSizeLimit st = .error (m, st')) : st'.input = st.input := by
  unfold parseSizeLimit at h
  split at h
  case _ e hop =>
    injection h with h1
    subst h1
    exact parseComparisonOp_err_input hop
  case _ op st1 hop =>
    dsimp only at h
    split at h
    case _ e hnum =>
      injection h with h1
      subst h1
      rw [parseNumber_err_input hnum, skipWhitespace_input, parseComparisonOp_ok_input hop]
    · exact Except.noConfusion h

end SlugKit

namespace SlugKit

theorem parseOptionsAux_ok_input :
    ∀ (fuel : Nat) (st : Cursor) (opts r : Options) (st' : Cursor),
      parseOptionsAux fuel st opts = .ok (r, st') → st'.input = st.input := by
  intro fuel
  induction fuel with
  | zero =>
    intro st opts r st' h
    unfold parseOptionsAux at h
    injection h with h1
    have hs : _ = st' := congrArg Prod.snd h1
    subst hs
    rfl
  | succ n ih =>
    intro st opts r st' h
    rw [parseOptionsAux] at h
    split at h
    · exact Except.noConfusion h
    case _ key st1 hkey =>
      split at h
      · exact Except.noConfusion h
      case _ st2 heqc =>
        dsimp only at h
        repeat' split at h
        all_goals first
          | exact Except.noConfusion h
          | (injection h with h1
             have hs : _ = st' := congrArg Prod.snd h1
             subst hs
             try simp only [skipWhitespace_input, next_input]
             try dsimp only
             rw [expectC_ok_input heqc, parseIdentifier_ok_input hkey])
          | (rw [ih _ _ _ _ h]
             try simp only [skipWhitespace_input, next_input]
             try dsimp only
             rw [expectC_ok_input heqc, parseIdentifier_ok_input hkey])

theorem parseOptionsAux_err_input :
    ∀ (fuel : Nat) (st : Cursor) (opts : Options) (m : String) (st' : Cursor),
      parseOptionsAux fuel st opts = .error (m, st') → st'.input = st.input := by
  intro fuel
  induction fuel with
  | zero =>
    intro st opts m st' h
    unfold parseOptionsAux at h
    exact Except.noConfusion h
  | succ n ih =>
    intro st opts m st' h
    rw [parseOptionsAux] at h
    split at h
    case _ e hkey =>
      injection h with h1
      subst h1
      exact parseIdentifier_err_input hkey
    case _ key st1 hkey =>
      split at h
      case _ e heqc =>
        injection h with h1
        subst h1
        rw [expectC_err_input heqc, parseIdentifier_ok_input hkey]
      case _ st2 heqc =>
        dsimp only at h
        repeat' split at h
        all_goals first
          | exact Except.noConfusion h
          | (rw [ih _ _ _ _ h]
             try simp only [skipWhitespace_input, next_input]
             try dsimp only
             rw [expectC_ok_input heqc, parseIdentifier_ok_input hkey])

theorem parseOptions_ok_input {st : Cursor} {r : Options} {st' : Cursor}
    (h : parseOptions st = .ok (r, st')) : st'.input = st.input :=
  parseOptionsAux_ok_input _ _ _ _ _ h

theorem parseOptions_err_input {st : Cursor} {m : String} {st' : Cursor}
    (h : parseOptions st = .error (m, st')) : st'.input = st.input :=
  parseOptionsAux_err_input _ _ _ _ _ h

theorem parseNumberBase_ok_input {st : Cursor} {b : NumberBase} {st' : Cursor}
    (h : parseNumberBase st = .ok (b, st')) : st'.input = st.input := by
  unfold parseNumberBase at h
  repeat' first
    | split at h
    | dsimp only at h
  all_goals first
    | exact Except.noConfusion h
    | (injection h with h1
       have hs : _ = st' := congrArg Prod.snd h1
       subst hs
       exact parseIdentifier_ok_input (by assumption))

theorem parseNumberBase_err_input {st : Cursor} {m : String} {st' : Cursor}
    (h : parseNumberBase st = .error (m, st')) : st'.input = st.input := by
  unfold parseNumberBase at h
  repeat' first
    | split at h
    | dsimp only at h
  all_goals first
    | exact Except.noConfusion h
    | (injection h with h1
       subst h1
       exact parseIdentifier_err_input (by assumption))
    | (injection h with h1
       have hs : _ = st' := congrArg Prod.snd h1
       subst hs
       exact parseIdentifier_ok_input (by assumption))

theorem parseShortNumberBase_ok_input {st : Cursor} {b : NumberBase} {st' : Cursor}
    (h : parseShortNumberBase st = .ok (b, st')) : st'.input = st.input := by
  unfold parseShortNumberBase at h
  repeat' first
    | split at h
    | dsimp only at h
  all_goals first
    | exact Except.noConfusion h
    | (injection h with h1
       have hs : _ = st' := congrArg Prod.snd h1
       subst hs
       exact next_pair_input (by assumption))

theorem parseShortNumberBase_err_input {st : Cursor} {m : String} {st' : Cursor}
    (h : parseShortNumberBase st = .error (m, st')) : st'.input = st.input := by
  unfold parseShortNumberBase at h
  repeat' first
    | split at h
    | dsimp only at h
  all_goals first
    | exact Except.noConfusion h
    | (injection h with h1
       have hs : _ = st' := congrArg Prod.snd h1
       subst hs
       exact next_pair_input (by assumption))

end SlugKit

namespace SlugKit

theorem benign_createContextInfo {input : Str} {ps : PState} {pe : Option PartialElement}
    (h : ps.cur.input = input) :
    BenignInfo input (createContextInfo ps Option.none pe) := by
  refine ⟨rfl, rfl, ps.cur.pos, ?_⟩
  unfold createContextInfo
  dsimp only
  rw [h]

theorem parsePartialTagsAux_benign :
    ∀ (fuel : Nat) (ps : PState) (inc exc : List Str) (input : Str),
      ps.cur.input = input →
      (∀ ci, parsePartialTagsAux fuel ps inc exc = .inl ci → BenignInfo input ci) ∧
      (∀ t ps', parsePartialTagsAux fuel ps inc exc = .inr (t, ps') →
        ps'.cur.input = input) := by
  intro fuel
  induction fuel with
  | zero =>
    intro ps inc exc input hin
    constructor
    · intro ci h
      exact Sum.noConfusion h
    · intro t ps' h
      unfold parsePartialTagsAux at h
      injection h with h1
      have hs : _ = ps' := congrArg Prod.snd h1
      subst hs
      exact hin
  | succ n ih =>
    intro ps inc exc input hin
    rw [parsePartialTagsAux]
    constructor
    · intro ci h
      split at h
      all_goals try exact Sum.noConfusion h
      all_goals
        dsimp only at h
        split at h
      -- eof sub-case: inl createContextInfo
      all_goals try
        (injection h with h1
         subst h1
         refine benign_createContextInfo ?_
         simp only [PState.setContext]
         simp only [next_input, hin])
      all_goals split at h
      all_goals first
        | exact (ih _ _ _ input (by
            simp only [skipWhitespace_input]
            rw [parseTag_ok_input (by assumption)]
            simp only [next_input, hin])).1 ci h
        | (injection h with h1
           subst h1
           refine benign_createContextInfo ?_
           simp only [PState.setContext]
           rw [parseTag_err_input (by assumption)]
           simp only [next_input, hin])
    · intro t ps' h
      split at h
      all_goals try
        (injection h with h1
         have hs : _ = ps' := congrArg Prod.snd h1
         subst hs
         exact hin)
      all_goals
        dsimp only at h
        split at h
      all_goals try exact Sum.noConfusion h
      all_goals split at h
      all_goals first
        | exact (ih _ _ _ input (by
            simp only [skipWhitespace_input]
            rw [parseTag_ok_input (by assumption)]
            simp only [next_input, hin])).2 t ps' h
        | exact Sum.noConfusion h

end SlugKit

namespace SlugKit

theorem parsePartialTags_inl_benign {ps : PState} {input : Str} {ci : ParserContextInfo}
    (hin : ps.cur.input = input) (h : parsePartialTags ps = .inl ci) :
    BenignInfo input ci :=
  (parsePartialTagsAux_benign _ _ _ _ input hin).1 ci h

theorem parsePartialTags_inr_input {ps : PState} {input : Str}
    {t : List Str × List Str} {ps' : PState}
    (hin : ps.cur.input = input) (h : parsePartialTags ps = .inr (t, ps')) :
    ps'.cur.input = input :=
  (parsePartialTagsAux_benign _ _ _ _ input hin).2 t ps' h

theorem partialSelectorOptions_benign (sel : PartialSelector) (ps : PState)
    (input : Str) (hin : ps.cur.input = input) :
    BenignInfo input (partialSelectorOptions sel ps) := by
  unfold partialSelectorOptions
  split
  · dsimp only
    split
    case _ opts cur hopt =>
      refine benign_createContextInfo ?_
      show cur.input = input
      rw [parseOptions_ok_input hopt, skipWhitespace_input, next_input, hin]
    case _ m cur hopt =>
      refine benign_createContextInfo ?_
      show cur.input = input
      rw [parseOptions_err_input hopt, skipWhitespace_input, next_input, hin]
  · exact benign_createContextInfo hin

theorem partialSelectorSizeLimit_benign (sel : PartialSelector) (ps : PState)
    (input : Str) (hin : ps.cur.input = input) :
    BenignInfo input (partialSelectorSizeLimit sel ps) := by
  unfold partialSelectorSizeLimit
  split
  case _ c =>
    split
    · split
      case _ m cur hsl =>
        refine benign_createContextInfo ?_
        show cur.input = input
        rw [parseSizeLimit_err_input hsl, hin]
      case _ sl cur hsl =>
        have hcur : cur.input = input := by
          rw [parseSizeLimit_ok_input hsl, hin]
        dsimp only
        split
        · exact benign_createContextInfo hcur
        · split
          · split
            case _ ci htags =>
              exact parsePartialTags_inl_benign hcur htags
            case _ t ps' htags =>
              exact partialSelectorOptions_benign _ _ _
                (parsePartialTags_inr_input hcur htags)
          · exact partialSelectorOptions_benign _ _ _ hcur
    · exact partialSelectorOptions_benign _ _ _ hin
  case _ =>
    exact partialSelectorOptions_benign _ _ _ hin

theorem partialSelectorBody_benign (sel : PartialSelector) (ps : PState)
    (input : Str) (hin : ps.cur.input = input) :
    BenignInfo input (partialSelectorBody sel ps) := by
  unfold partialSelectorBody
  split
  · split
    case _ ci htags =>
      exact parsePartialTags_inl_benign hin htags
    case _ t ps' htags =>
      exact partialSelectorSizeLimit_benign _ _ _ (parsePartialTags_inr_input hin htags)
  · exact partialSelectorSizeLimit_benign _ _ _ hin

theorem partialSelectorAfterLang_benign (sel : PartialSelector) (ps : PState)
    (input : Str) (hin : ps.cur.input = input) :
    BenignInfo input (partialSelectorAfterLang sel ps) := by
  unfold partialSelectorAfterLang
  split
  · exact benign_createContextInfo hin
  · split
    · have hcur : (skipWhitespace ((ps.cur.next).2)).input = input := by
        rw [skipWhitespace_input, next_input, hin]
      dsimp only
      split
      · exact benign_createContextInfo hcur
      · exact partialSelectorBody_benign _ _ _ hcur
    · exact benign_createContextInfo hin

theorem parsePartialSelector_benign (kind : Str) (ps : PState)
    (input : Str) (hin : ps.cur.input = input) :
    BenignInfo input (parsePartialSelector kind ps) := by
  unfold parsePartialSelector
  split
  · exact benign_createContextInfo hin
  · split
    · have hnext : ((ps.cur.next).2).input = input := by rw [next_input, hin]
      dsimp only
      split
      · exact benign_createContextInfo hnext
      · split
        case _ m cur hid =>
          refine benign_createContextInfo ?_
          show cur.input = input
          rw [parseIdentifier_err_input hid, hnext]
        case _ lang cur hid =>
          have hcur : cur.input = input := by
            rw [parseIdentifier_ok_input hid, hnext]
          try dsimp only
          split
          · exact benign_createContextInfo hcur
          · exact partialSelectorAfterLang_benign _ _ _ hcur
    · exact partialSelectorAfterLang_benign _ _ _ hin

end SlugKit

namespace SlugKit

theorem parsePartialNumberGen_benign (ps : PState)
    (input : Str) (hin : ps.cur.input = input) :
    BenignInfo input (parsePartialNumberGen ps) := by
  unfold parsePartialNumberGen
  split
  · exact benign_createContextInfo hin
  · split
    · have hnext : ((ps.cur.next).2).input = input := by rw [next_input, hin]
      try dsimp only
      split
      · exact benign_createContextInfo hnext
      · split
        case _ m cur hnum =>
          refine benign_createContextInfo ?_
          show cur.input = input
          rw [parseNumber_err_input hnum, hnext]
        case _ len cur hnum =>
          have hcur : cur.input = input := by
            rw [parseNumber_ok_input hnum, hnext]
          try dsimp only
          split
          · exact benign_createContextInfo hcur
          · split
            case _ c =>
              split
              · split
                case _ b cur2 hb =>
                  refine benign_createContextInfo ?_
                  show cur2.input = input
                  rw [parseShortNumberBase_ok_input hb, hcur]
                case _ m cur2 hb =>
                  refine benign_createContextInfo ?_
                  show cur2.input = input
                  rw [parseShortNumberBase_err_input hb, hcur]
              · split
                · try dsimp only
                  split
                  case _ b cur2 hb =>
                    refine benign_createContextInfo ?_
                    show cur2.input = input
                    rw [parseNumberBase_ok_input hb, skipWhitespace_input, next_input, hcur]
                  case _ m cur2 hb =>
                    refine benign_createContextInfo ?_
                    show cur2.input = input
                    rw [parseNumberBase_err_input hb, skipWhitespace_input, next_input, hcur]
                · exact benign_createContextInfo hcur
            case _ =>
              exact benign_createContextInfo hcur
    · exact benign_createContextInfo hin

theorem parsePartialSpecialGen_benign (ps : PState)
    (input : Str) (hin : ps.cur.input = input) :
    BenignInfo input (parsePartialSpecialGen ps) := by
  unfold parsePartialSpecialGen
  split
  · exact benign_createContextInfo hin
  · split
    · have hnext : ((ps.cur.next).2).input = input := by rw [next_input, hin]
      try dsimp only
      split
      · exact benign_createContextInfo hnext
      · split
        case _ m cur hnum =>
          refine benign_createContextInfo ?_
          show cur.input = input
          rw [parseNumber_err_input hnum, hnext]
        case _ n cur hnum =>
          have hcur : cur.input = input := by
            rw [parseNumber_ok_input hnum, hnext]
          try dsimp only
          split
          · exact benign_createContextInfo hcur
          · split
            · have hnext2 : ((cur.next).2).input = input := by rw [next_input, hcur]
              try dsimp only
              split
              · exact benign_createContextInfo hnext2
              · split
                case _ m cur2 hnum2 =>
                  refine benign_createContextInfo ?_
                  show cur2.input = input
                  rw [parseNumber_err_input hnum2, hnext2]
                case _ m2 cur2 hnum2 =>
                  refine benign_createContextInfo ?_
                  show cur2.input = input
                  rw [parseNumber_ok_input hnum2, hnext2]
            · exact benign_createContextInfo hcur
    · exact benign_createContextInfo hin

theorem partialGlobalOptions_benign (g : PartialGlobalSettings) (ps : PState)
    (input : Str) (hin : ps.cur.input = input) :
    BenignInfo input (partialGlobalOptions g ps) := by
  unfold partialGlobalOptions
  split
  · dsimp only
    split
    case _ opts cur hopt =>
      refine benign_createContextInfo ?_
      show cur.input = input
      rw [parseOptions_ok_input hopt, skipWhitespace_input, next_input, hin]
    case _ m cur hopt =>
      refine benign_createContextInfo ?_
      show cur.input = input
      rw [parseOptions_err_input hopt, skipWhitespace_input, next_input, hin]
  · exact benign_createContextInfo hin

theorem partialGlobalSizeLimit_benign (g : PartialGlobalSettings) (ps : PState)
    (input : Str) (hin : ps.cur.input = input) :
    BenignInfo input (partialGlobalSizeLimit g ps) := by
  unfold partialGlobalSizeLimit
  split
  case _ c =>
    split
    · split
      case _ m cur hsl =>
        refine benign_createContextInfo ?_
        show cur.input = input
        rw [parseSizeLimit_err_input hsl, hin]
      case _ sl cur hsl =>
        have hcur : cur.input = input := by
          rw [parseSizeLimit_ok_input hsl, hin]
        dsimp only
        split
        · exact benign_createContextInfo hcur
        · split
          · split
            case _ ci htags =>
              exact parsePartialTags_inl_benign hcur htags
            case _ t ps' htags =>
              exact partialGlobalOptions_benign _ _ _
                (parsePartialTags_inr_input hcur htags)
          · exact partialGlobalOptions_benign _ _ _ hcur
    · exact partialGlobalOptions_benign _ _ _ hin
  case _ =>
    exact partialGlobalOptions_benign _ _ _ hin

theorem partialGlobalBody_benign (g : PartialGlobalSettings) (ps : PState)
    (input : Str) (hin : ps.cur.input = input) :
    BenignInfo input (partialGlobalBody g ps) := by
  unfold partialGlobalBody
  split
  · split
    case _ ci htags =>
      exact parsePartialTags_inl_benign hin htags
    case _ t ps' htags =>
      exact partialGlobalSizeLimit_benign _ _ _ (parsePartialTags_inr_input hin htags)
  · exact partialGlobalSizeLimit_benign _ _ _ hin

theorem parsePartialGlobalSettings_benign (ps : PState)
    (input : Str) (hin : ps.cur.input = input) :
    BenignInfo input (parsePartialGlobalSettings ps) := by
  unfold parsePartialGlobalSettings
  split
  · exact benign_createContextInfo hin
  · split
    · have hnext : ((ps.cur.next).2).input = input := by rw [next_input, hin]
      try dsimp only
      split
      · exact benign_createContextInfo hnext
      · split
        case _ m cur hid =>
          refine benign_createContextInfo ?_
          show cur.input = input
          rw [parseIdentifier_err_input hid, hnext]
        case _ lang cur hid =>
          refine partialGlobalBody_benign _ _ _ ?_
          show cur.input = input
          rw [parseIdentifier_ok_input hid, hnext]
    · exact partialGlobalBody_benign _ _ _ hin

theorem parsePartialElement_benign (ps : PState)
    (input : Str) (hin : ps.cur.input = input) :
    BenignInfo input (parsePartialElement ps) := by
  unfold parsePartialElement
  split
  · exact benign_createContextInfo hin
  · split
    case _ m cur hid =>
      refine benign_createContextInfo ?_
      show cur.input = input
      rw [parseIdentifier_err_input hid, hin]
    case _ identifier cur hid =>
      have hcur : cur.input = input := by
        rw [parseIdentifier_ok_input hid, hin]
      try dsimp only
      split
      · exact parsePartialNumberGen_benign _ _ hcur
      · split
        · exact parsePartialSpecialGen_benign _ _ hcur
        · exact parsePartialSelector_benign _ _ _ hcur

theorem parsePartialInternal_benign :
    ∀ (fuel : Nat) (ps : PState) (input : Str), ps.cur.input = input →
      (∀ ci ps', parsePartialInternal fuel ps = (some ci, ps') → BenignInfo input ci) ∧
      (∀ ps', parsePartialInternal fuel ps = (Option.none, ps') →
        ps'.cur.input = input) := by
  intro fuel
  induction fuel with
  | zero =>
    intro ps input hin
    constructor
    · intro ci ps' h
      unfold parsePartialInternal at h
      injection h with h1
      exact Option.noConfusion h1
    · intro ps' h
      unfold parsePartialInternal at h
      injection h with h1 h2
      subst h2
      exact hin
  | succ n ih =>
    intro ps input hin
    rw [parsePartialInternal]
    constructor
    · intro ci ps' h
      split at h
      · injection h with h1
        exact Option.noConfusion h1
      · split at h
        · injection h with h1 h2
          have hci : _ = ci := Option.some.inj h1
          subst hci
          refine parsePartialElement_benign _ _ ?_
          show ((ps.pushContext .IN_PLACEHOLDER).cur.next).2.input = input
          rw [next_input]
          exact hin
        · split at h
          · injection h with h1 h2
            have hci : _ = ci := Option.some.inj h1
            subst hci
            refine parsePartialGlobalSettings_benign _ _ ?_
            show ((ps.pushContext .IN_GLOBAL_SETTINGS).cur.next).2.input = input
            rw [next_input]
            exact hin
          · split at h
            · dsimp only at h
              split at h
              · exact (ih _ input (by simp [next_input, hin])).1 ci ps' h
              · exact (ih _ input (by simp [next_input, hin])).1 ci ps' h
            · exact (ih _ input (by simp [next_input, hin])).1 ci ps' h
    · intro ps' h
      split at h
      · injection h with h1 h2
        subst h2
        exact hin
      · split at h
        · injection h with h1
          exact Option.noConfusion h1
        · split at h
          · injection h with h1
            exact Option.noConfusion h1
          · split at h
            · dsimp only at h
              split at h
              · exact (ih _ input (by simp [next_input, hin])).2 ps' h
              · exact (ih _ input (by simp [next_input, hin])).2 ps' h
            · exact (ih _ input (by simp [next_input, hin])).2 ps' h

theorem parsePartial_benign (input : Str) :
    BenignInfo input (PatternParser.parsePartial input) := by
  unfold PatternParser.parsePartial
  dsimp only
  split
  case _ ci ps' heq =>
    exact (parsePartialInternal_benign _ _ input rfl).1 ci ps' heq
  case _ ps' heq =>
    exact benign_createContextInfo ((parsePartialInternal_benign _ _ input rfl).2 ps' heq)

end SlugKit

namespace SlugKit

theorem parseLoop_chunks_eq (fuel : Nat) :
    ∀ (st : Cursor) (acc : ParseAcc) (res : ParseAcc × Cursor),
      parseLoop fuel st acc = .ok res →
      acc.textChunks.length = acc.elements.length →
      res.1.textChunks.length = res.1.elements.length := by
  induction fuel with
  | zero =>
    intro st acc res h _
    simp [parseLoop] at h
  | succ n ih =>
    intro st acc res h hlen
    rw [parseLoop] at h
    dsimp only at h
    split at h
    · cases h
      exact hlen
    · split at h
      · split at h
        · exact Except.noConfusion h
        · split at h
          · exact Except.noConfusion h
          · refine ih _ _ _ h ?_
            simp [hlen]
      · split at h
        · split at h
          · exact Except.noConfusion h
          · split at h
            · exact Except.noConfusion h
            · split at h
              · cases h
                exact hlen
              · exact Except.noConfusion h
        · split at h
          · split at h
            · exact Except.noConfusion h
            · split at h
              · exact ih _ _ _ h hlen
              · exact Except.noConfusion h
          · split at h
            · exact Except.noConfusion h
            · split at h
              · exact Except.noConfusion h
              · exact ih _ _ _ h hlen

theorem parseSpecialCharGen_min_le_max (st : Cursor) (g : SpecialCharGen) (st' : Cursor)
    (h : parseSpecialCharGen st = .ok (g, st')) : g.minLength ≤ g.maxLength := by
  unfold parseSpecialCharGen at h
  dsimp only at h
  repeat' split at h
  all_goals first
    | exact Except.noConfusion h
    | (injection h with h1
       have hg : _ = g := congrArg Prod.fst h1
       subst hg
       simp
       try omega)

theorem parseElement_special_min_le_max (st : Cursor) (e : PatternElement) (st' : Cursor)
    (h : parseElement st = .ok (e, st')) :
    ∀ g, e = .specialChar g → g.minLength ≤ g.maxLength := by
  intro g hg
  unfold parseElement at h
  dsimp only at h
  repeat' split at h
  all_goals try exact Except.noConfusion h
  all_goals
    injection h with h1
    have he : _ = e := congrArg Prod.fst h1
    subst he
    dsimp only at hg
  all_goals first
    | exact PatternElement.noConfusion hg
    | (cases hg
       exact parseSpecialCharGen_min_le_max _ _ _ (by assumption))

theorem parseLoop_special_min_le_max (fuel : Nat) :
    ∀ (st : Cursor) (acc : ParseAcc) (res : ParseAcc × Cursor),
      parseLoop fuel st acc = .ok res →
      (∀ g, PatternElement.specialChar g ∈ acc.elements → g.minLength ≤ g.maxLength) →
      ∀ g, PatternElement.specialChar g ∈ res.1.elements → g.minLength ≤ g.maxLength := by
  induction fuel with
  | zero =>
    intro st acc res h _
    simp [parseLoop] at h
  | succ n ih =>
    intro st acc res h hacc
    rw [parseLoop] at h
    dsimp only at h
    split at h
    · cases h
      exact hacc
    · split at h
      · split at h
        · exact Except.noConfusion h
        · rename_i el stq helem
          split at h
          · exact Except.noConfusion h
          · refine ih _ _ _ h ?_
            intro g hg
            simp only [List.mem_append, List.mem_singleton] at hg
            rcases hg with hg | hg
            · exact hacc g hg
            · exact parseElement_special_min_le_max _ _ _ helem g hg.symm
      · split at h
        · split at h
          · exact Except.noConfusion h
          · split at h
            · exact Except.noConfusion h
            · split at h
              · cases h
                exact hacc
              · exact Except.noConfusion h
        · split at h
          · split at h
            · exact Except.noConfusion h
            · split at h
              · exact ih _ _ _ h hacc
              · exact Except.noConfusion h
          · split at h
            · exact Except.noConfusion h
            · split at h
              · exact Except.noConfusion h
              · exact ih _ _ _ h hacc

theorem parse_special_min_le_max_main (input : Str) (pp : ParsedPattern)
    (h : PatternParser.parse input = .ok pp) :
    ∀ g, PatternElement.specialChar g ∈ pp.elements → g.minLength ≤ g.maxLength := by
  unfold PatternParser.parse at h
  dsimp only at h
  split at h
  · exact Except.noConfusion h
  case _ acc st heq =>
    have hinv := parseLoop_special_min_le_max _ _ _ _ heq (by simp)
    cases h
    exact hinv

end SlugKit

namespace SlugKit

/-! C10 helpers: the partial parse of an input depends only on the part up to
and including the closer of the first construct. -/

theorem takeWhile_append_closer (P : Char → Bool) (z : Char) (hz : P z = false) :
    ∀ (xs ys : Str), List.takeWhile P (xs ++ z :: ys) = List.takeWhile P xs := by
  intro xs ys
  induction xs with
  | nil => simp [List.takeWhile_cons, hz]
  | cons a l ih =>
    simp only [List.cons_append, List.takeWhile_cons, ih]

theorem TwinSt.weaken {u t : Str} {z : Char} {st₁ st₂ : Cursor}
    (h : TwinSt u t z st₁ st₂) : TwinStW u t z st₁ st₂ :=
  ⟨h.input₁, h.input₂, h.posEq, h.ltEq, Nat.le_succ_of_le h.posLe⟩

theorem TwinSt.rest₁ {u t : Str} {z : Char} {st₁ st₂ : Cursor}
    (h : TwinSt u t z st₁ st₂) :
    st₁.rest = u.drop st₂.pos ++ z :: t := by
  show st₁.input.drop st₁.pos = _
  rw [h.input₁, h.posEq, List.drop_append_of_le_length h.posLe]

theorem TwinSt.rest₂ {u t : Str} {z : Char} {st₁ st₂ : Cursor}
    (h : TwinSt u t z st₁ st₂) :
    st₂.rest = u.drop st₂.pos ++ [z] := by
  show st₂.input.drop st₂.pos = _
  rw [h.input₂, List.drop_append_of_le_length h.posLe]

theorem TwinSt.peek_eq {u t : Str} {z : Char} {st₁ st₂ : Cursor}
    (h : TwinSt u t z st₁ st₂) : st₁.peek = st₂.peek := by
  show st₁.rest.head? = st₂.rest.head?
  rw [h.rest₁, h.rest₂]
  cases u.drop st₂.pos <;> rfl

theorem TwinSt.matchC_eq {u t : Str} {z : Char} {st₁ st₂ : Cursor}
    (h : TwinSt u t z st₁ st₂) (c : Char) : st₁.matchC c = st₂.matchC c := by
  unfold Cursor.matchC
  rw [h.peek_eq]

theorem TwinSt.isEof₁ {u t : Str} {z : Char} {st₁ st₂ : Cursor}
    (h : TwinSt u t z st₁ st₂) : st₁.isEof = false := by
  have h1 := h.input₁
  have h2 := h.posEq
  have h3 := h.posLe
  simp only [Cursor.isEof, h1, h2, List.length_append, List.length_cons,
    decide_eq_false_iff_not, not_le]
  omega

theorem TwinSt.isEof₂ {u t : Str} {z : Char} {st₁ st₂ : Cursor}
    (h : TwinSt u t z st₁ st₂) : st₂.isEof = false := by
  have h2 := h.input₂
  have h3 := h.posLe
  simp only [Cursor.isEof, h2, List.length_append, List.length_cons,
    List.length_nil, decide_eq_false_iff_not, not_le]
  omega

theorem TwinSt.peek_closer {u t : Str} {z : Char} {st₁ st₂ : Cursor}
    (h : TwinSt u t z st₁ st₂) (hp : st₂.peek = some z) : st₂.pos = u.length := by
  by_contra hne
  have hlt : st₂.pos < u.length := lt_of_le_of_ne h.posLe hne
  have hd : u.drop st₂.pos ≠ [] := by
    intro hempty
    have := congrArg List.length hempty
    simp [List.length_drop] at this
    omega
  rw [show st₂.peek = st₂.rest.head? from rfl, h.rest₂] at hp
  cases hdrop : u.drop st₂.pos with
  | nil => exact hd hdrop
  | cons a l =>
    rw [hdrop] at hp
    simp at hp
    exact h.zNot (hp ▸ (hdrop ▸ List.mem_cons_self a l))

theorem TwinSt.next_eq {u t : Str} {z : Char} {st₁ st₂ : Cursor}
    (h : TwinSt u t z st₁ st₂) :
    (st₁.next).1 = (st₂.next).1 ∧
    TwinStW u t z (st₁.next).2 (st₂.next).2 ∧
    (∀ c, (st₂.next).1 = some c → c ≠ z → TwinSt u t z (st₁.next).2 (st₂.next).2) := by
  have hpeek : st₁.rest.head? = st₂.rest.head? := h.peek_eq
  have hposle := h.posLe
  unfold Cursor.next
  rw [hpeek]
  cases hh : st₂.rest.head? with
  | none =>
    refine ⟨rfl, h.weaken, ?_⟩
    intro c hc
    exact absurd hc (by simp)
  | some c =>
    refine ⟨rfl, ?_, ?_⟩
    · refine ⟨?_, ?_, ?_, ?_, ?_⟩ <;> dsimp only
      all_goals first
        | exact h.input₁
        | exact h.input₂
        | rw [h.posEq]
        | omega
    · intro c' hc' hcz
      dsimp only at hc'
      have hcc := Option.some.inj hc'
      subst hcc
      have hlt : st₂.pos < u.length := by
        rcases Nat.lt_or_ge st₂.pos u.length with hlt | hge
        · exact hlt
        · exfalso
          have hposeq : st₂.pos = u.length := le_antisymm h.posLe hge
          have hrest : st₂.rest = [z] := by
            rw [h.rest₂, hposeq]
            simp
          rw [hrest] at hh
          simp at hh
          exact hcz hh.symm
      refine ⟨?_, ?_, ?_, ?_, ?_, ?_⟩ <;> dsimp only
      all_goals first
        | exact h.input₁
        | exact h.input₂
        | rw [h.posEq]
        | omega
        | (intro hmem
           have hk : List.drop (st₂.pos + 1) u = List.drop 1 (List.drop st₂.pos u) := by
             rw [List.drop_drop]
           rw [hk] at hmem
           exact h.zNot (List.drop_subset _ _ hmem))

theorem IsCloser.not_alnum {z : Char} (hz : IsCloser z) : isAlnumUnd z = false := by
  rcases hz with h | h <;> subst h <;> decide

theorem IsCloser.not_digit {z : Char} (hz : IsCloser z) : isDigitChar z = false := by
  rcases hz with h | h <;> subst h <;> decide

theorem IsCloser.not_ws {z : Char} (hz : IsCloser z) : isWsChar z = false := by
  rcases hz with h | h <;> subst h <;> decide

theorem IsCloser.not_comp {z : Char} (hz : IsCloser z) : isCompChar z = false := by
  rcases hz with h | h <;> subst h <;> decide

theorem IsCloser.not_alpha {z : Char} (hz : IsCloser z) : isAlphaUnd z = false := by
  rcases hz with h | h <;> subst h <;> decide

theorem IsCloser.ne_eq_sign {z : Char} (hz : IsCloser z) : z ≠ '=' := by
  rcases hz with h | h <;> subst h <;> decide

theorem zNot_advance {u : Str} {z : Char} {p : Nat} (h : z ∉ u.drop p) (k : Nat) :
    z ∉ u.drop (p + k) := by
  intro hmem
  have hk : List.drop (p + k) u = List.drop k (List.drop p u) := by
    rw [List.drop_drop, Nat.add_comm]
  rw [hk] at hmem
  exact h (List.drop_subset _ _ hmem)

theorem TwinSt.takeWhile_eq {u t : Str} {z : Char} {st₁ st₂ : Cursor}
    (h : TwinSt u t z st₁ st₂) (P : Char → Bool) (hP : P z = false) :
    st₁.rest.takeWhile P = (u.drop st₂.pos).takeWhile P ∧
    st₂.rest.takeWhile P = (u.drop st₂.pos).takeWhile P := by
  constructor
  · rw [h.rest₁, takeWhile_append_closer P z hP]
  · rw [h.rest₂]
    have : (u.drop st₂.pos) ++ [z] = (u.drop st₂.pos) ++ z :: [] := rfl
    rw [this, takeWhile_append_closer P z hP]

theorem takeWhile_drop_le {u : Str} {p : Nat} (P : Char → Bool) :
    ((u.drop p).takeWhile P).length ≤ u.length - p := by
  calc ((u.drop p).takeWhile P).length ≤ (u.drop p).length :=
        (List.takeWhile_sublist P).length_le
    _ = u.length - p := List.length_drop p u

theorem TwinSt.advance {u t : Str} {z : Char} {st₁ st₂ : Cursor}
    (h : TwinSt u t z st₁ st₂) (k : Nat) (hk : k ≤ u.length - st₂.pos)
    (v : Option Str) :
    TwinSt u t z { st₁ with pos := st₁.pos + k, lastParsedToken := v }
      { st₂ with pos := st₂.pos + k, lastParsedToken := v } := by
  have hle := h.posLe
  refine ⟨h.input₁, h.input₂, ?_, rfl, ?_, ?_⟩ <;> dsimp only
  · rw [h.posEq]
  · omega
  · exact zNot_advance h.zNot k

theorem parseNumber_twin {u t : Str} {z : Char} {st₁ st₂ : Cursor}
    (hz : IsCloser z) (h : TwinSt u t z st₁ st₂) :
    (∀ n st₁', parseNumber st₁ = .ok (n, st₁') →
      ∃ st₂', parseNumber st₂ = .ok (n, st₂') ∧ TwinSt u t z st₁' st₂') ∧
    (∀ m st₁', parseNumber st₁ = .error (m, st₁') →
      parseNumber st₂ = .error (m, st₂) ∧ st₁' = st₁) := by
  obtain ⟨hw₁, hw₂⟩ := h.takeWhile_eq isDigitChar hz.not_digit
  have hpos := h.posEq
  constructor
  · intro n st₁' hok
    unfold parseNumber at hok ⊢
    rw [hw₁] at hok
    rw [hw₂]
    dsimp only at hok ⊢
    split at hok
    · exact Except.noConfusion hok
    case _ hne =>
      rw [if_neg hne]
      injection hok with h1
      simp only [Prod.mk.injEq] at h1
      obtain ⟨hval, hst⟩ := h1
      subst hval
      subst hst
      exact ⟨_, rfl, h.advance _ (takeWhile_drop_le isDigitChar) _⟩
  · intro m st₁' herr
    unfold parseNumber at herr ⊢
    rw [hw₁] at herr
    rw [hw₂]
    dsimp only at herr ⊢
    split at herr
    case _ hemp =>
      rw [if_pos hemp]
      injection herr with h1
      simp only [Prod.mk.injEq] at h1
      obtain ⟨hm, hst⟩ := h1
      subst hm
      constructor
      · rw [hpos]
      · exact hst.symm
    · exact Except.noConfusion herr

theorem parseNumber_okTwin {u t : Str} {z : Char} {st₁ st₂ : Cursor}
    (hz : IsCloser z) (h : TwinSt u t z st₁ st₂) :
    OkTwin u t z (parseNumber st₁) (parseNumber st₂) := by
  obtain ⟨hok, herr⟩ := parseNumber_twin hz h
  constructor
  · intro a st₁' he
    exact hok a st₁' he
  · intro m st₁' he
    obtain ⟨h2, h3⟩ := herr m st₁' he
    subst h3
    exact ⟨st₂, h2, h.weaken⟩

theorem parseTag_okTwin {u t : Str} {z : Char} {st₁ st₂ : Cursor}
    (hz : IsCloser z) (h : TwinSt u t z st₁ st₂) :
    OkTwin u t z (parseTag st₁) (parseTag st₂) := by
  obtain ⟨hw₁, hw₂⟩ := h.takeWhile_eq isAlnumUnd hz.not_alnum
  have hpos := h.posEq
  constructor
  · intro a st₁' hok
    unfold parseTag at hok ⊢
    rw [hw₁] at hok
    rw [hw₂]
    dsimp only at hok ⊢
    split at hok
    · exact Except.noConfusion hok
    case _ hne =>
      rw [if_neg hne]
      injection hok with h1
      simp only [Prod.mk.injEq] at h1
      obtain ⟨hval, hst⟩ := h1
      subst hval
      subst hst
      exact ⟨_, rfl, h.advance _ (takeWhile_drop_le isAlnumUnd) _⟩
  · intro m st₁' herr
    unfold parseTag at herr ⊢
    rw [hw₁] at herr
    rw [hw₂]
    dsimp only at herr ⊢
    split at herr
    case _ hemp =>
      rw [if_pos hemp]
      injection herr with h1
      simp only [Prod.mk.injEq] at h1
      obtain ⟨hm, hst⟩ := h1
      subst hm
      refine ⟨st₂, ?_, ?_⟩
      · rw [hpos]
      · rw [← hst]
        exact h.weaken
    · exact Except.noConfusion herr

theorem skipWhitespace_twin {u t : Str} {z : Char} {st₁ st₂ : Cursor}
    (hz : IsCloser z) (h : TwinSt u t z st₁ st₂) :
    TwinSt u t z (skipWhitespace st₁) (skipWhitespace st₂) := by
  obtain ⟨hw₁, hw₂⟩ := h.takeWhile_eq isWsChar hz.not_ws
  unfold skipWhitespace
  rw [hw₁, hw₂]
  dsimp only
  split
  · exact h
  · exact h.advance _ (takeWhile_drop_le isWsChar) _

theorem parseIdentifier_okTwin {u t : Str} {z : Char} {st₁ st₂ : Cursor}
    (hz : IsCloser z) (h : TwinSt u t z st₁ st₂) :
    OkTwin u t z (parseIdentifier st₁) (parseIdentifier st₂) := by
  have hpeek := h.peek_eq
  have hpos := h.posEq
  constructor
  · intro a st₁' hok
    unfold parseIdentifier at hok ⊢
    rw [hpeek] at hok
    cases hp : st₂.peek with
    | none =>
      rw [hp] at hok
      exact Except.noConfusion hok
    | some c =>
      rw [hp] at hok
      dsimp only at hok ⊢
      split at hok
      case _ halpha =>
        rw [if_pos halpha]
        have hcz : c ≠ z := by
          intro hcz
          subst hcz
          rw [hz.not_alpha] at halpha
          exact Bool.noConfusion halpha
        have hlt : st₂.pos < u.length := by
          rcases Nat.lt_or_ge st₂.pos u.length with hlt | hge
          · exact hlt
          · exfalso
            have hposeq : st₂.pos = u.length := le_antisymm h.posLe hge
            have hrest : st₂.rest = [z] := by
              rw [h.rest₂, hposeq]
              simp
            rw [show st₂.peek = st₂.rest.head? from rfl, hrest] at hp
            simp at hp
            exact hcz hp.symm
        have hdrop₁ : st₁.input.drop (st₁.pos + 1) = u.drop (st₂.pos + 1) ++ z :: t := by
          rw [h.input₁, hpos, List.drop_append_of_le_length (by omega)]
        have hdrop₂ : st₂.input.drop (st₂.pos + 1) = u.drop (st₂.pos + 1) ++ [z] := by
          rw [h.input₂, List.drop_append_of_le_length (by omega)]
        rw [hdrop₁] at hok
        rw [hdrop₂]
        rw [takeWhile_append_closer _ z hz.not_alnum] at hok
        have : u.drop (st₂.pos + 1) ++ [z] = u.drop (st₂.pos + 1) ++ z :: [] := rfl
        rw [this, takeWhile_append_closer _ z hz.not_alnum]
        injection hok with h1
        simp only [Prod.mk.injEq] at h1
        obtain ⟨hval, hst⟩ := h1
        subst hval
        subst hst
        refine ⟨_, rfl, ?_⟩
        have hk : (c :: (u.drop (st₂.pos + 1)).takeWhile isAlnumUnd).length ≤
            u.length - st₂.pos := by
          have h1 := takeWhile_drop_le (u := u) (p := st₂.pos + 1) isAlnumUnd
          simp only [List.length_cons]
          omega
        exact h.advance _ hk _
      case _ halpha =>
        rw [if_neg halpha]
        exact Except.noConfusion hok
  · intro m st₁' herr
    unfold parseIdentifier at herr ⊢
    rw [hpeek] at herr
    cases hp : st₂.peek with
    | none =>
      rw [hp] at herr
      injection herr with h1
      simp only [Prod.mk.injEq] at h1
      obtain ⟨hm, hst⟩ := h1
      subst hm
      refine ⟨st₂, ?_, ?_⟩
      · rw [hpos]
      · rw [← hst]
        exact h.weaken
    | some c =>
      rw [hp] at herr
      dsimp only at herr ⊢
      split at herr
      case _ halpha =>
        rw [if_pos halpha]
        exact Except.noConfusion herr
      case _ halpha =>
        rw [if_neg halpha]
        injection herr with h1
        simp only [Prod.mk.injEq] at h1
        obtain ⟨hm, hst⟩ := h1
        subst hm
        refine ⟨st₂, ?_, ?_⟩
        · rw [hpos]
        · rw [← hst]
          exact h.weaken

theorem next_fst (st : Cursor) : (st.next).1 = st.peek := by
  unfold Cursor.next Cursor.peek
  cases st.rest.head? <;> rfl

theorem matchC_peek {st : Cursor} {c : Char} (h : st.matchC c = true) :
    st.peek = some c := by
  unfold Cursor.matchC at h
  cases hp : st.peek with
  | none =>
    rw [hp] at h
    exact Bool.noConfusion h
  | some c' =>
    rw [hp] at h
    have : c' = c := by
      have := of_decide_eq_true (by simpa using h)
      exact this
    rw [this]

theorem TwinSt.withLt {u t : Str} {z : Char} {st₁ st₂ : Cursor}
    (h : TwinSt u t z st₁ st₂) (v : Option Str) :
    TwinSt u t z { st₁ with lastParsedToken := v }
      { st₂ with lastParsedToken := v } :=
  ⟨h.input₁, h.input₂, h.posEq, rfl, h.posLe, h.zNot⟩

theorem IsCloser.ne_comp {z c : Char} (hz : IsCloser z) (hc : isCompChar c = true) :
    c ≠ z := by
  intro he
  subst he
  rw [hz.not_comp] at hc
  exact Bool.noConfusion hc

theorem expectC_twin {u t : Str} {z : Char} {st₁ st₂ : Cursor}
    (h : TwinSt u t z st₁ st₂) (c : Char) (hc : c ≠ z) :
    CurTwin u t z (expectC st₁ c) (expectC st₂ c) := by
  obtain ⟨hch, hweak, hactive⟩ := h.next_eq
  unfold expectC
  constructor
  · intro st₁' hok
    dsimp only at hok ⊢
    split at hok
    case _ hcc =>
      rw [hch] at hcc
      rw [if_pos hcc]
      injection hok with h1
      subst h1
      refine ⟨_, rfl, hactive c hcc hc⟩
    case _ hcc =>
      exact Except.noConfusion hok
  · intro m st₁' herr
    dsimp only at herr ⊢
    split at herr
    case _ hcc =>
      exact Except.noConfusion herr
    case _ hcc =>
      rw [hch] at hcc
      rw [if_neg hcc]
      injection herr with h1
      simp only [Prod.mk.injEq] at h1
      obtain ⟨hm, hst⟩ := h1
      subst hm
      refine ⟨(st₂.next).2, ?_, ?_⟩
      · rw [hweak.posEq]
      · rw [← hst]
        exact hweak

theorem TwinSt.next_of_matchC {u t : Str} {z : Char} {st₁ st₂ : Cursor}
    (h : TwinSt u t z st₁ st₂) {c : Char} (hm : st₂.matchC c = true) (hcz : c ≠ z) :
    TwinSt u t z (st₁.next).2 (st₂.next).2 :=
  h.next_eq.2.2 c (by rw [next_fst]; exact matchC_peek hm) hcz

theorem parseComparisonOp_okTwin {u t : Str} {z : Char} {st₁ st₂ : Cursor}
    (hz : IsCloser z) (h : TwinSt u t z st₁ st₂) :
    OkTwin u t z (parseComparisonOp st₁) (parseComparisonOp st₂) := by
  have hlt : ('<' : Char) ≠ z := hz.ne_comp (by decide)
  have hgt : ('>' : Char) ≠ z := hz.ne_comp (by decide)
  have heqs : ('=' : Char) ≠ z := hz.ne_comp (by decide)
  have hbang : ('!' : Char) ≠ z := hz.ne_comp (by decide)
  constructor
  · intro a st₁' hok
    unfold parseComparisonOp at hok ⊢
    dsimp only at hok ⊢
    rw [h.matchC_eq '<'] at hok
    split at hok
    case isTrue hm1 =>
      rw [if_pos hm1]
      have t1 := h.next_of_matchC hm1 hlt
      rw [t1.matchC_eq '='] at hok
      split at hok
      case isTrue hm2 =>
        rw [if_pos hm2]
        have t2 := t1.next_of_matchC hm2 heqs
        injection hok with h1
        simp only [Prod.mk.injEq] at h1
        obtain ⟨hv, hs⟩ := h1
        subst hv
        subst hs
        exact ⟨_, rfl, t2.withLt _⟩
      case isFalse hm2 =>
        rw [if_neg hm2]
        injection hok with h1
        simp only [Prod.mk.injEq] at h1
        obtain ⟨hv, hs⟩ := h1
        subst hv
        subst hs
        exact ⟨_, rfl, t1.withLt _⟩
    case isFalse hm1 =>
      rw [if_neg hm1]
      rw [h.matchC_eq '>'] at hok
      split at hok
      case isTrue hm2 =>
        rw [if_pos hm2]
        have t1 := h.next_of_matchC hm2 hgt
        rw [t1.matchC_eq '='] at hok
        split at hok
        case isTrue hm3 =>
          rw [if_pos hm3]
          have t2 := t1.next_of_matchC hm3 heqs
          injection hok with h1
          simp only [Prod.mk.injEq] at h1
          obtain ⟨hv, hs⟩ := h1
          subst hv
          subst hs
          exact ⟨_, rfl, t2.withLt _⟩
        case isFalse hm3 =>
          rw [if_neg hm3]
          injection hok with h1
          simp only [Prod.mk.injEq] at h1
          obtain ⟨hv, hs⟩ := h1
          subst hv
          subst hs
          exact ⟨_, rfl, t1.withLt _⟩
      case isFalse hm2 =>
        rw [if_neg hm2]
        rw [h.matchC_eq '='] at hok
        split at hok
        case isTrue hm3 =>
          rw [if_pos hm3]
          have t1 := h.next_of_matchC hm3 heqs
          rw [t1.matchC_eq '='] at hok
          split at hok
          case isTrue hm4 =>
            rw [if_pos hm4]
            have t2 := t1.next_of_matchC hm4 heqs
            injection hok with h1
            simp only [Prod.mk.injEq] at h1
            obtain ⟨hv, hs⟩ := h1
            subst hv
            subst hs
            exact ⟨_, rfl, t2.withLt _⟩
          case isFalse hm4 =>
            exact Except.noConfusion hok
        case isFalse hm3 =>
          rw [if_neg hm3]
          rw [h.matchC_eq '!'] at hok
          split at hok
          case isTrue hm4 =>
            rw [if_pos hm4]
            have t1 := h.next_of_matchC hm4 hbang
            rw [t1.matchC_eq '='] at hok
            split at hok
            case isTrue hm5 =>
              rw [if_pos hm5]
              have t2 := t1.next_of_matchC hm5 heqs
              injection hok with h1
              simp only [Prod.mk.injEq] at h1
              obtain ⟨hv, hs⟩ := h1
              subst hv
              subst hs
              exact ⟨_, rfl, t2.withLt _⟩
            case isFalse hm5 =>
              exact Except.noConfusion hok
          case isFalse hm4 =>
            exact Except.noConfusion hok
  · intro m st₁' herr
    unfold parseComparisonOp at herr ⊢
    dsimp only at herr ⊢
    rw [h.matchC_eq '<'] at herr
    split at herr
    case isTrue hm1 =>
      rw [if_pos hm1]
      have t1 := h.next_of_matchC hm1 hlt
      rw [t1.matchC_eq '='] at herr
      split at herr <;> exact Except.noConfusion herr
    case isFalse hm1 =>
      rw [if_neg hm1]
      rw [h.matchC_eq '>'] at herr
      split at herr
      case isTrue hm2 =>
        rw [if_pos hm2]
        have t1 := h.next_of_matchC hm2 hgt
        rw [t1.matchC_eq '='] at herr
        split at herr <;> exact Except.noConfusion herr
      case isFalse hm2 =>
        rw [if_neg hm2]
        rw [h.matchC_eq '='] at herr
        split at herr
        case isTrue hm3 =>
          rw [if_pos hm3]
          have t1 := h.next_of_matchC hm3 heqs
          rw [t1.matchC_eq '='] at herr
          split at herr
          case isTrue hm4 =>
            exact Except.noConfusion herr
          case isFalse hm4 =>
            rw [if_neg hm4]
            injection herr with h1
            simp only [Prod.mk.injEq] at h1
            obtain ⟨hm, hs⟩ := h1
            subst hm
            refine ⟨(st₂.next).2, ?_, ?_⟩
            · rw [t1.posEq]
            · rw [← hs]
              exact t1.weaken
        case isFalse hm3 =>
          rw [if_neg hm3]
          rw [h.matchC_eq '!'] at herr
          split at herr
          case isTrue hm4 =>
            rw [if_pos hm4]
            have t1 := h.next_of_matchC hm4 hbang
            rw [t1.matchC_eq '='] at herr
            split at herr
            case isTrue hm5 =>
              exact Except.noConfusion herr
            case isFalse hm5 =>
              rw [if_neg hm5]
              injection herr with h1
              simp only [Prod.mk.injEq] at h1
              obtain ⟨hm, hs⟩ := h1
              subst hm
              refine ⟨(st₂.next).2, ?_, ?_⟩
              · rw [t1.posEq]
              · rw [← hs]
                exact t1.weaken
          case isFalse hm4 =>
            rw [if_neg hm4]
            injection herr with h1
            simp only [Prod.mk.injEq] at h1
            obtain ⟨hm, hs⟩ := h1
            subst hm
            refine ⟨st₂, ?_, ?_⟩
            · rw [h.posEq]
            · rw [← hs]
              exact h.weaken

theorem parseSizeLimit_okTwin {u t : Str} {z : Char} {st₁ st₂ : Cursor}
    (hz : IsCloser z) (h : TwinSt u t z st₁ st₂) :
    OkTwin u t z (parseSizeLimit st₁) (parseSizeLimit st₂) := by
  obtain ⟨hcok, hcerr⟩ := parseComparisonOp_okTwin hz h
  constructor
  · intro a st₁' hok
    unfold parseSizeLimit at hok ⊢
    split at hok
    · exact Except.noConfusion hok
    case _ op stc hc =>
      obtain ⟨stc₂, hc₂, tc⟩ := hcok _ _ hc
      rw [hc₂]
      have tw := skipWhitespace_twin hz tc
      dsimp only at hok ⊢
      split at hok
      · exact Except.noConfusion hok
      case _ v stn hn =>
        obtain ⟨stn₂, hn₂, tn⟩ := (parseNumber_okTwin hz tw).1 _ _ hn
        rw [hn₂]
        injection hok with h1
        simp only [Prod.mk.injEq] at h1
        obtain ⟨hv, hs⟩ := h1
        subst hv
        subst hs
        exact ⟨_, rfl, tn⟩
  · intro m st₁' herr
    unfold parseSizeLimit at herr ⊢
    split at herr
    case _ e hc =>
      injection herr with h1
      subst h1
      obtain ⟨stc₂, hc₂, tc⟩ := hcerr _ _ hc
      rw [hc₂]
      exact ⟨_, rfl, tc⟩
    case _ op stc hc =>
      obtain ⟨stc₂, hc₂, tc⟩ := hcok _ _ hc
      rw [hc₂]
      have tw := skipWhitespace_twin hz tc
      dsimp only at herr ⊢
      split at herr
      case _ e hn =>
        injection herr with h1
        subst h1
        obtain ⟨stn₂, hn₂, tn⟩ := (parseNumber_okTwin hz tw).2 _ _ hn
        rw [hn₂]
        exact ⟨_, rfl, tn⟩
      · exact Except.noConfusion herr

theorem parseShortNumberBase_okTwin {u t : Str} {z : Char} {st₁ st₂ : Cursor}
    (hz : IsCloser z) (h : TwinSt u t z st₁ st₂) :
    OkTwin u t z (parseShortNumberBase st₁) (parseShortNumberBase st₂) := by
  obtain ⟨hch, hweak, hactive⟩ := h.next_eq
  constructor
  · intro a st₁' hok
    unfold parseShortNumberBase at hok ⊢
    dsimp only at hok ⊢
    rw [hch] at hok
    split at hok
    all_goals first
      | exact Except.noConfusion hok
      | (rename_i hcase
         injection hok with h1
         simp only [Prod.mk.injEq] at h1
         obtain ⟨hv, hs⟩ := h1
         subst hv
         subst hs
         refine ⟨_, rfl, ?_⟩
         refine hactive _ hcase ?_
         rcases hz with hzz | hzz <;> subst hzz <;> decide)
  · intro m st₁' herr
    unfold parseShortNumberBase at herr ⊢
    dsimp only at herr ⊢
    rw [hch] at herr
    split at herr
    all_goals try exact Except.noConfusion herr
    rename_i hx hcase
    injection herr with h1
    simp only [Prod.mk.injEq] at h1
    obtain ⟨hm, hs⟩ := h1
    subst hm
    refine ⟨(st₂.next).2, rfl, ?_⟩
    rw [← hs]
    exact hweak

theorem parseNumberBase_okTwin {u t : Str} {z : Char} {st₁ st₂ : Cursor}
    (hz : IsCloser z) (h : TwinSt u t z st₁ st₂) :
    OkTwin u t z (parseNumberBase st₁) (parseNumberBase st₂) := by
  obtain ⟨hiok, hierr⟩ := parseIdentifier_okTwin hz h
  constructor
  · intro a st₁' hok
    unfold parseNumberBase at hok ⊢
    split at hok
    · exact Except.noConfusion hok
    case _ base stc hid =>
      obtain ⟨stc₂, hid₂, tc⟩ := hiok _ _ hid
      rw [hid₂]
      dsimp only at hok ⊢
      split at hok
      case isTrue hc0 =>
        rw [if_pos hc0]
        injection hok with h1
        simp only [Prod.mk.injEq] at h1
        obtain ⟨hv, hs⟩ := h1
        subst hv
        subst hs
        exact ⟨_, rfl, tc⟩
      case isFalse hc0 =>
        rw [if_neg hc0]
        split at hok
        case isTrue hc1 =>
          rw [if_pos hc1]
          injection hok with h1
          simp only [Prod.mk.injEq] at h1
          obtain ⟨hv, hs⟩ := h1
          subst hv
          subst hs
          exact ⟨_, rfl, tc⟩
        case isFalse hc1 =>
          rw [if_neg hc1]
          split at hok
          case isTrue hc2 =>
            rw [if_pos hc2]
            injection hok with h1
            simp only [Prod.mk.injEq] at h1
            obtain ⟨hv, hs⟩ := h1
            subst hv
            subst hs
            exact ⟨_, rfl, tc⟩
          case isFalse hc2 =>
            rw [if_neg hc2]
            split at hok
            case isTrue hc3 =>
              rw [if_pos hc3]
              injection hok with h1
              simp only [Prod.mk.injEq] at h1
              obtain ⟨hv, hs⟩ := h1
              subst hv
              subst hs
              exact ⟨_, rfl, tc⟩
            case isFalse hc3 =>
              rw [if_neg hc3]
              split at hok
              case isTrue hc4 =>
                rw [if_pos hc4]
                injection hok with h1
                simp only [Prod.mk.injEq] at h1
                obtain ⟨hv, hs⟩ := h1
                subst hv
                subst hs
                exact ⟨_, rfl, tc⟩
              case isFalse hc4 =>
                rw [if_neg hc4]
                exact Except.noConfusion hok
  · intro m st₁' herr
    unfold parseNumberBase at herr ⊢
    split at herr
    case _ e hid =>
      injection herr with h1
      subst h1
      obtain ⟨stc₂, hid₂, tc⟩ := hierr _ _ hid
      rw [hid₂]
      exact ⟨_, rfl, tc⟩
    case _ base stc hid =>
      obtain ⟨stc₂, hid₂, tc⟩ := hiok _ _ hid
      rw [hid₂]
      dsimp only at herr ⊢
      split at herr
      case isTrue hc0 =>
        exact Except.noConfusion herr
      case isFalse hc0 =>
        rw [if_neg hc0]
        split at herr
        case isTrue hc1 =>
          exact Except.noConfusion herr
        case isFalse hc1 =>
          rw [if_neg hc1]
          split at herr
          case isTrue hc2 =>
            exact Except.noConfusion herr
          case isFalse hc2 =>
            rw [if_neg hc2]
            split at herr
            case isTrue hc3 =>
              exact Except.noConfusion herr
            case isFalse hc3 =>
              rw [if_neg hc3]
              split at herr
              case isTrue hc4 =>
                exact Except.noConfusion herr
              case isFalse hc4 =>
                rw [if_neg hc4]
                injection herr with h1
                simp only [Prod.mk.injEq] at h1
                obtain ⟨hm, hs⟩ := h1
                subst hm
                refine ⟨stc₂, rfl, ?_⟩
                rw [← hs]
                exact tc.weaken

theorem PTwin.widen {u t : Str} {z : Char} {ps₁ ps₂ : PState}
    (h : PTwin u t z ps₁ ps₂) : PTwinW u t z ps₁ ps₂ :=
  ⟨h.ctxEq, h.stackEq, h.cur.weaken⟩

theorem take_twin {u t : Str} {z : Char} {p : Nat} (hp : p ≤ u.length + 1) :
    (u ++ z :: t).take p = (u ++ [z]).take p := by
  rw [List.take_append_eq_append_take, List.take_append_eq_append_take]
  congr 1
  have hd : p - u.length ≤ 1 := by omega
  cases hk : p - u.length with
  | zero => rfl
  | succ k =>
    have : k = 0 := by omega
    subst this
    rfl

theorem createContextInfo_twin {u t : Str} {z : Char} {ps₁ ps₂ : PState}
    (h : PTwinW u t z ps₁ ps₂) (pe : Option PartialElement) :
    InfoTwin u (createContextInfo ps₁ Option.none pe)
      (createContextInfo ps₂ Option.none pe) := by
  have hc := h.cur
  constructor
  · unfold createContextInfo
    rw [h.ctxEq, hc.posEq, hc.ltEq, hc.input₁, hc.input₂,
      take_twin (hc.posEq ▸ hc.posLe)]
  · show ps₁.cur.pos ≤ u.length + 1
    rw [hc.posEq]
    exact hc.posLe

/-! Fuel adequacy: the fueled loops do not depend on the exact fuel once it
exceeds the length of the unread input, because every iteration consumes at
least one character. -/

theorem rest_le_of_pos_ge {st st' : Cursor} (hin : st'.input = st.input)
    (hpos : st.pos ≤ st'.pos) : st'.rest.length ≤ st.rest.length := by
  show (st'.input.drop st'.pos).length ≤ (st.input.drop st.pos).length
  rw [hin]
  simp only [List.length_drop]
  omega

theorem next_pos_ge (st : Cursor) : st.pos ≤ ((st.next).2).pos := by
  unfold Cursor.next
  cases st.rest.head? <;> simp

theorem next_rest_le (st : Cursor) : ((st.next).2).rest.length ≤ st.rest.length :=
  rest_le_of_pos_ge (next_input st) (next_pos_ge st)

theorem next_rest_lt_of_peek {st : Cursor} {c : Char} (h : st.peek = some c) :
    ((st.next).2).rest.length < st.rest.length := by
  have hne : st.rest ≠ [] := by
    intro he
    rw [show st.peek = st.rest.head? from rfl, he] at h
    exact Option.noConfusion h
  unfold Cursor.next
  rw [show st.peek = st.rest.head? from rfl] at h
  rw [h]
  dsimp only
  show (st.input.drop (st.pos + 1)).length < st.rest.length
  have h1 : st.rest.length > 0 := List.length_pos.2 hne
  have h2 : st.rest.length = st.input.length - st.pos := List.length_drop _ _
  simp only [List.length_drop]
  omega

theorem skipWhitespace_pos_ge (st : Cursor) : st.pos ≤ (skipWhitespace st).pos := by
  unfold skipWhitespace
  dsimp only
  split <;> simp

theorem skipWhitespace_rest_le (st : Cursor) :
    (skipWhitespace st).rest.length ≤ st.rest.length :=
  rest_le_of_pos_ge (skipWhitespace_input st) (skipWhitespace_pos_ge st)

theorem expectC_ok_pos_ge {st : Cursor} {c : Char} {st' : Cursor}
    (h : expectC st c = .ok st') : st.pos ≤ st'.pos := by
  unfold expectC at h
  repeat' split at h
  all_goals first
    | exact Except.noConfusion h
    | (injection h with h1
       rw [← h1]
       rename_i heq _
       have hs := congrArg Prod.snd heq
       dsimp only at hs
       rw [← hs]
       exact next_pos_ge st)

theorem parseIdentifier_ok_rest_lt {st : Cursor} {x : Str} {st' : Cursor}
    (h : parseIdentifier st = .ok (x, st')) : st'.rest.length < st.rest.length := by
  unfold parseIdentifier at h
  cases hp : st.peek with
  | none =>
    rw [hp] at h
    exact Except.noConfusion h
  | some c =>
    rw [hp] at h
    have hlt : st.pos < st.input.length := by
      have hne : st.rest ≠ [] := by
        intro he
        rw [show st.peek = st.rest.head? from rfl, he] at hp
        exact Option.noConfusion hp
      have := List.length_pos.2 hne
      rw [show st.rest.length = st.input.length - st.pos from List.length_drop _ _] at this
      omega
    repeat' split at h
    all_goals first
      | exact Except.noConfusion h
      | (injection h with h1
         have hs : _ = st' := congrArg Prod.snd h1
         rw [← hs]
         show (st.input.drop _).length < st.rest.length
         rw [show st.rest.length = st.input.length - st.pos from List.length_drop _ _]
         simp only [List.length_drop, List.length_cons]
         omega)

theorem parseTag_ok_pos_ge {st : Cursor} {x : Str} {st' : Cursor}
    (h : parseTag st = .ok (x, st')) : st.pos ≤ st'.pos := by
  unfold parseTag at h
  dsimp only at h
  split at h
  · exact Except.noConfusion h
  · injection h with h1
    have hs : _ = st' := congrArg Prod.snd h1
    rw [← hs]
    simp

theorem parseOptionsAux_fuel :
    ∀ (f₁ f₂ : Nat) (st : Cursor) (opts : Options),
      st.rest.length < f₁ → st.rest.length < f₂ →
      parseOptionsAux f₁ st opts = parseOptionsAux f₂ st opts := by
  intro f₁
  induction f₁ with
  | zero =>
    intro f₂ st opts h1 h2
    omega
  | succ n ih =>
    intro f₂ st opts h1 h2
    cases f₂ with
    | zero => omega
    | succ m =>
      rw [parseOptionsAux, parseOptionsAux]
      split
      · rfl
      case _ key st1 hkey =>
        split
        · rfl
        case _ st2 heqc =>
          dsimp only
          have hr1 : st1.rest.length < st.rest.length := parseIdentifier_ok_rest_lt hkey
          have hr2 : st2.rest.length ≤ st1.rest.length :=
            rest_le_of_pos_ge (expectC_ok_input heqc) (expectC_ok_pos_ge heqc)
          have hgen : ∀ X : Cursor, X.rest.length ≤ st2.rest.length →
              (skipWhitespace ((X.next).2)).rest.length < st.rest.length := by
            intro X hX
            calc (skipWhitespace ((X.next).2)).rest.length
                ≤ ((X.next).2).rest.length := skipWhitespace_rest_le _
              _ ≤ X.rest.length := next_rest_le _
              _ ≤ st2.rest.length := hX
              _ ≤ st1.rest.length := hr2
              _ < st.rest.length := hr1
          have hgenN : ∀ X : Cursor, X.rest.length ≤ st2.rest.length →
              (skipWhitespace ((X.next).2)).rest.length < n := by
            intro X hX
            have := hgen X hX
            omega
          have hgenM : ∀ X : Cursor, X.rest.length ≤ st2.rest.length →
              (skipWhitespace ((X.next).2)).rest.length < m := by
            intro X hX
            have := hgen X hX
            omega
          split
          all_goals split
          all_goals first
            | rfl
            | (apply ih <;>
                first
                  | exact hgenN _ (le_refl _)
                  | exact hgenN _ (rest_le_of_pos_ge rfl (by simp))
                  | exact hgenM _ (le_refl _)
                  | exact hgenM _ (rest_le_of_pos_ge rfl (by simp)))

theorem IsCloser.ne_comma {z : Char} (hz : IsCloser z) : (',' : Char) ≠ z := by
  rcases hz with h | h <;> subst h <;> decide

theorem IsCloser.ne_eq_sign_rev {z : Char} (hz : IsCloser z) : ('=' : Char) ≠ z :=
  fun he => hz.ne_eq_sign he.symm

theorem parseOptionsAux_twin {u t : Str} {z : Char} (hz : IsCloser z) :
    ∀ (f : Nat) {st₁ st₂ : Cursor} (opts : Options), TwinSt u t z st₁ st₂ →
      OkTwin u t z (parseOptionsAux f st₁ opts) (parseOptionsAux f st₂ opts) := by
  intro f
  induction f with
  | zero =>
    intro st₁ st₂ opts h
    constructor
    · intro a st₁' hok
      rw [parseOptionsAux] at hok
      injection hok with h1
      simp only [Prod.mk.injEq] at h1
      obtain ⟨hv, hs⟩ := h1
      subst hv
      subst hs
      exact ⟨st₂, by rw [parseOptionsAux], h⟩
    · intro m st₁' herr
      rw [parseOptionsAux] at herr
      exact Except.noConfusion herr
  | succ n ih =>
    intro st₁ st₂ opts h
    constructor
    · intro a st₁' hok
      rw [parseOptionsAux] at hok
      rw [parseOptionsAux]
      split at hok
      · exact Except.noConfusion hok
      case _ key stA hid =>
        obtain ⟨stA₂, hid₂, tA⟩ := (parseIdentifier_okTwin hz h).1 _ _ hid
        rw [hid₂]
        dsimp only at hok ⊢
        split at hok
        · exact Except.noConfusion hok
        case _ stB heqc =>
          obtain ⟨stB₂, heqc₂, tB⟩ := (expectC_twin tA '=' hz.ne_eq_sign_rev).1 _ heqc
          rw [heqc₂]
          dsimp only at hok ⊢
          obtain ⟨hv₁, hv₂⟩ := tB.takeWhile_eq isAlnumUnd hz.not_alnum
          rw [hv₁] at hok
          rw [hv₂]
          cases hlast : ((u.drop stB₂.pos).takeWhile isAlnumUnd).getLast? with
          | none =>
            rw [hlast] at hok
            dsimp only at hok ⊢
            rw [tB.matchC_eq ','] at hok
            split at hok
            case isTrue hc =>
              rw [if_pos hc]
              have tN := skipWhitespace_twin hz (tB.next_of_matchC hc hz.ne_comma)
              exact (ih _ tN).1 _ _ hok
            case isFalse hc =>
              rw [if_neg hc]
              injection hok with h1
              simp only [Prod.mk.injEq] at h1
              obtain ⟨hvv, hss⟩ := h1
              subst hvv
              subst hss
              exact ⟨stB₂, rfl, tB⟩
          | some c =>
            rw [hlast] at hok
            dsimp only at hok ⊢
            have tC := tB.advance ((u.drop stB₂.pos).takeWhile isAlnumUnd).length
              (takeWhile_drop_le isAlnumUnd) (some [c])
            rw [tC.matchC_eq ','] at hok
            split at hok
            case isTrue hc =>
              rw [if_pos hc]
              have tN := skipWhitespace_twin hz (tC.next_of_matchC hc hz.ne_comma)
              exact (ih _ tN).1 _ _ hok
            case isFalse hc =>
              rw [if_neg hc]
              injection hok with h1
              simp only [Prod.mk.injEq] at h1
              obtain ⟨hvv, hss⟩ := h1
              subst hvv
              subst hss
              exact ⟨_, rfl, tC⟩
    · intro m st₁' herr
      rw [parseOptionsAux] at herr
      rw [parseOptionsAux]
      split at herr
      case _ e hid =>
        injection herr with h1
        subst h1
        obtain ⟨stA₂, hid₂, tA⟩ := (parseIdentifier_okTwin hz h).2 _ _ hid
        rw [hid₂]
        exact ⟨stA₂, rfl, tA⟩
      case _ key stA hid =>
        obtain ⟨stA₂, hid₂, tA⟩ := (parseIdentifier_okTwin hz h).1 _ _ hid
        rw [hid₂]
        dsimp only at herr ⊢
        split at herr
        case _ e heqc =>
          injection herr with h1
          subst h1
          obtain ⟨stB₂, heqc₂, tB⟩ := (expectC_twin tA '=' hz.ne_eq_sign_rev).2 _ _ heqc
          rw [heqc₂]
          exact ⟨stB₂, rfl, tB⟩
        case _ stB heqc =>
          obtain ⟨stB₂, heqc₂, tB⟩ := (expectC_twin tA '=' hz.ne_eq_sign_rev).1 _ heqc
          rw [heqc₂]
          dsimp only at herr ⊢
          obtain ⟨hv₁, hv₂⟩ := tB.takeWhile_eq isAlnumUnd hz.not_alnum
          rw [hv₁] at herr
          rw [hv₂]
          cases hlast : ((u.drop stB₂.pos).takeWhile isAlnumUnd).getLast? with
          | none =>
            rw [hlast] at herr
            dsimp only at herr ⊢
            rw [tB.matchC_eq ','] at herr
            split at herr
            case isTrue hc =>
              rw [if_pos hc]
              have tN := skipWhitespace_twin hz (tB.next_of_matchC hc hz.ne_comma)
              exact (ih _ tN).2 _ _ herr
            case isFalse hc =>
              exact Except.noConfusion herr
          | some c =>
            rw [hlast] at herr
            dsimp only at herr ⊢
            have tC := tB.advance ((u.drop stB₂.pos).takeWhile isAlnumUnd).length
              (takeWhile_drop_le isAlnumUnd) (some [c])
            rw [tC.matchC_eq ','] at herr
            split at herr
            case isTrue hc =>
              rw [if_pos hc]
              have tN := skipWhitespace_twin hz (tC.next_of_matchC hc hz.ne_comma)
              exact (ih _ tN).2 _ _ herr
            case isFalse hc =>
              exact Except.noConfusion herr

theorem parseOptions_twin {u t : Str} {z : Char} {st₁ st₂ : Cursor}
    (hz : IsCloser z) (h : TwinSt u t z st₁ st₂) :
    OkTwin u t z (parseOptions st₁) (parseOptions st₂) := by
  unfold parseOptions
  have hb₂ : st₂.rest.length ≤ st₂.input.length := by
    show (st₂.input.drop _).length ≤ _
    simp only [List.length_drop]
    omega
  have hlen : st₂.input.length ≤ st₁.input.length := by
    rw [h.input₁, h.input₂]
    simp only [List.length_append, List.length_cons, List.length_nil]
    omega
  rw [parseOptionsAux_fuel (st₂.input.length + 1) (st₁.input.length + 1) st₂ []
    (by omega) (by omega)]
  exact parseOptionsAux_twin hz _ [] h

theorem parsePartialTagsAux_fuel :
    ∀ (f₁ f₂ : Nat) (ps : PState) (inc exc : List Str),
      ps.cur.rest.length < f₁ → ps.cur.rest.length < f₂ →
      parsePartialTagsAux f₁ ps inc exc = parsePartialTagsAux f₂ ps inc exc := by
  intro f₁
  induction f₁ with
  | zero =>
    intro f₂ ps inc exc h1 h2
    omega
  | succ n ih =>
    intro f₂ ps inc exc h1 h2
    cases f₂ with
    | zero => omega
    | succ m =>
      rw [parsePartialTagsAux, parsePartialTagsAux]
      split
      all_goals try rfl
      all_goals
        rename_i heq
        dsimp only
        have hlt : ((ps.cur.next).2).rest.length < ps.cur.rest.length :=
          next_rest_lt_of_peek heq
        split
        · rfl
        · split
          · rename_i tval cur htag
            have h3 : cur.rest.length ≤ ((ps.cur.next).2).rest.length :=
              rest_le_of_pos_ge (parseTag_ok_input htag) (parseTag_ok_pos_ge htag)
            have h4 := skipWhitespace_rest_le cur
            apply ih
            all_goals
              show (skipWhitespace cur).rest.length < _
              omega
          · rfl

theorem IsCloser.ne_plus {z : Char} (hz : IsCloser z) : ('+' : Char) ≠ z := by
  rcases hz with h | h <;> subst h <;> decide

theorem IsCloser.ne_minus {z : Char} (hz : IsCloser z) : ('-' : Char) ≠ z := by
  rcases hz with h | h <;> subst h <;> decide

theorem PTwin.withCur {u t : Str} {z : Char} {ps₁ ps₂ : PState}
    (h : PTwin u t z ps₁ ps₂) {c₁ c₂ : Cursor} (hc : TwinSt u t z c₁ c₂) :
    PTwin u t z { ps₁ with cur := c₁ } { ps₂ with cur := c₂ } :=
  ⟨h.ctxEq, h.stackEq, hc⟩

theorem parsePartialTagsAux_twin {u t : Str} {z : Char} (hz : IsCloser z) :
    ∀ (f : Nat) {ps₁ ps₂ : PState} (inc exc : List Str), PTwin u t z ps₁ ps₂ →
      TagsTwin u t z (parsePartialTagsAux f ps₁ inc exc)
        (parsePartialTagsAux f ps₂ inc exc) := by
  intro f
  induction f with
  | zero =>
    intro ps₁ ps₂ inc exc h
    constructor
    · intro ci hin
      rw [parsePartialTagsAux] at hin
      exact Sum.noConfusion hin
    · intro p ps₁' hin
      rw [parsePartialTagsAux] at hin
      injection hin with h1
      simp only [Prod.mk.injEq] at h1
      obtain ⟨hp, hs⟩ := h1
      subst hp
      subst hs
      exact ⟨ps₂, by rw [parsePartialTagsAux], h⟩
  | succ n ih =>
    intro ps₁ ps₂ inc exc h
    rw [parsePartialTagsAux, parsePartialTagsAux]
    rw [h.cur.peek_eq]
    split
    case _ heq =>
      -- leading '+'
      have twN : TwinSt u t z ((ps₁.cur.next).2) ((ps₂.cur.next).2) :=
        h.cur.next_eq.2.2 '+' (by rw [next_fst]; exact heq) hz.ne_plus
      dsimp only
      rw [twN.isEof₁, twN.isEof₂, if_neg Bool.false_ne_true,
        if_neg Bool.false_ne_true]
      cases htag : parseTag ((ps₁.cur.next).2) with
      | ok v =>
        obtain ⟨tv, cur⟩ := v
        obtain ⟨cur₂, htag₂, tC⟩ := (parseTag_okTwin hz twN).1 _ _ htag
        rw [htag₂]
        dsimp only
        exact ih _ _ (h.withCur (skipWhitespace_twin hz tC))
      | error e =>
        obtain ⟨m, cur⟩ := e
        obtain ⟨cur₂, htag₂, tC⟩ := (parseTag_okTwin hz twN).2 _ _ htag
        rw [htag₂]
        dsimp only
        constructor
        · intro ci hin
          injection hin with h1
          subst h1
          refine ⟨_, rfl, createContextInfo_twin (t := t) (z := z) ?_ Option.none⟩
          exact ⟨rfl, h.stackEq, tC⟩
        · intro p ps₁' hin
          exact Sum.noConfusion hin
    case _ heq =>
      -- leading '-'
      have twN : TwinSt u t z ((ps₁.cur.next).2) ((ps₂.cur.next).2) :=
        h.cur.next_eq.2.2 '-' (by rw [next_fst]; exact heq) hz.ne_minus
      dsimp only
      rw [twN.isEof₁, twN.isEof₂, if_neg Bool.false_ne_true,
        if_neg Bool.false_ne_true]
      cases htag : parseTag ((ps₁.cur.next).2) with
      | ok v =>
        obtain ⟨tv, cur⟩ := v
        obtain ⟨cur₂, htag₂, tC⟩ := (parseTag_okTwin hz twN).1 _ _ htag
        rw [htag₂]
        dsimp only
        exact ih _ _ (h.withCur (skipWhitespace_twin hz tC))
      | error e =>
        obtain ⟨m, cur⟩ := e
        obtain ⟨cur₂, htag₂, tC⟩ := (parseTag_okTwin hz twN).2 _ _ htag
        rw [htag₂]
        dsimp only
        constructor
        · intro ci hin
          injection hin with h1
          subst h1
          refine ⟨_, rfl, createContextInfo_twin (t := t) (z := z) ?_ Option.none⟩
          exact ⟨rfl, h.stackEq, tC⟩
        · intro p ps₁' hin
          exact Sum.noConfusion hin
    case _ =>
      constructor
      · intro ci hin
        exact Sum.noConfusion hin
      · intro p ps₁' hin
        injection hin with h1
        simp only [Prod.mk.injEq] at h1
        obtain ⟨hp, hs⟩ := h1
        subst hp
        subst hs
        exact ⟨ps₂, rfl, h⟩

theorem parsePartialTags_twin {u t : Str} {z : Char} {ps₁ ps₂ : PState}
    (hz : IsCloser z) (h : PTwin u t z ps₁ ps₂) :
    TagsTwin u t z (parsePartialTags ps₁) (parsePartialTags ps₂) := by
  unfold parsePartialTags
  have hc := h.cur
  have hb₂ : ps₂.cur.rest.length ≤ ps₂.cur.input.length := by
    show (ps₂.cur.input.drop _).length ≤ _
    simp only [List.length_drop]
    omega
  have hlen : ps₂.cur.input.length ≤ ps₁.cur.input.length := by
    rw [hc.input₁, hc.input₂]
    simp only [List.length_append, List.length_cons, List.length_nil]
    omega
  rw [parsePartialTagsAux_fuel (ps₂.cur.input.length + 1) (ps₁.cur.input.length + 1)
    ps₂ [] [] (by omega) (by omega)]
  exact parsePartialTagsAux_twin hz _ [] [] h

theorem IsCloser.ne_colon {z : Char} (hz : IsCloser z) : (':' : Char) ≠ z := by
  rcases hz with h | h <;> subst h <;> decide

theorem IsCloser.ne_at {z : Char} (hz : IsCloser z) : ('@' : Char) ≠ z := by
  rcases hz with h | h <;> subst h <;> decide

theorem partialSelectorOptions_twin {u t : Str} {z : Char} {ps₁ ps₂ : PState}
    (hz : IsCloser z) (h : PTwin u t z ps₁ ps₂) (sel : PartialSelector) :
    InfoTwin u (partialSelectorOptions sel ps₁) (partialSelectorOptions sel ps₂) := by
  unfold partialSelectorOptions
  rw [h.cur.matchC_eq ',']
  split
  case isTrue hc =>
    have twN := skipWhitespace_twin hz (h.cur.next_of_matchC hc hz.ne_comma)
    dsimp only
    cases hopt : parseOptions (skipWhitespace ((ps₁.cur.next).2)) with
    | ok v =>
      obtain ⟨opts, cur⟩ := v
      obtain ⟨cur₂, hopt₂, tC⟩ := (parseOptions_twin hz twN).1 _ _ hopt
      rw [hopt₂]
      dsimp only
      exact createContextInfo_twin (t := t) (z := z) (h.withCur tC).widen _
    | error e =>
      obtain ⟨m, cur⟩ := e
      obtain ⟨cur₂, hopt₂, tC⟩ := (parseOptions_twin hz twN).2 _ _ hopt
      rw [hopt₂]
      dsimp only
      refine createContextInfo_twin (t := t) (z := z) ?_ _
      exact ⟨rfl, h.stackEq, tC⟩
  case isFalse hc =>
    exact createContextInfo_twin (t := t) (z := z) h.widen _

theorem partialSelectorSizeLimit_twin {u t : Str} {z : Char} {ps₁ ps₂ : PState}
    (hz : IsCloser z) (h : PTwin u t z ps₁ ps₂) (sel : PartialSelector) :
    InfoTwin u (partialSelectorSizeLimit sel ps₁) (partialSelectorSizeLimit sel ps₂) := by
  unfold partialSelectorSizeLimit
  rw [h.cur.peek_eq]
  split
  · rename_i c
    split
    case isTrue hcomp =>
      cases hsl : parseSizeLimit ps₁.cur with
      | ok v =>
        obtain ⟨sl, cur⟩ := v
        obtain ⟨cur₂, hsl₂, tC⟩ := (parseSizeLimit_okTwin hz h.cur).1 _ _ hsl
        rw [hsl₂]
        dsimp only
        rw [tC.isEof₁, tC.isEof₂, if_neg Bool.false_ne_true, if_neg Bool.false_ne_true]
        rw [tC.matchC_eq '+', tC.matchC_eq '-']
        split
        case isTrue hpm =>
          have htw := parsePartialTags_twin hz (h.withCur tC)
          cases htags : parsePartialTags { ps₁ with cur := cur } with
          | inl ci =>
            obtain ⟨ci₂, htags₂, hinfo⟩ := htw.1 _ htags
            rw [htags₂]
            dsimp only
            exact hinfo
          | inr pr =>
            obtain ⟨pq, psm⟩ := pr
            obtain ⟨inc, exc⟩ := pq
            obtain ⟨ps₂', htags₂, hps⟩ := htw.2 _ _ htags
            rw [htags₂]
            dsimp only
            exact partialSelectorOptions_twin hz hps _
        case isFalse hpm =>
          exact partialSelectorOptions_twin hz (h.withCur tC) _
      | error e =>
        obtain ⟨m, cur⟩ := e
        obtain ⟨cur₂, hsl₂, tC⟩ := (parseSizeLimit_okTwin hz h.cur).2 _ _ hsl
        rw [hsl₂]
        dsimp only
        refine createContextInfo_twin (t := t) (z := z) ?_ _
        exact ⟨rfl, h.stackEq, tC⟩
    case isFalse hcomp =>
      exact partialSelectorOptions_twin hz h _
  · exact partialSelectorOptions_twin hz h _

theorem partialSelectorBody_twin {u t : Str} {z : Char} {ps₁ ps₂ : PState}
    (hz : IsCloser z) (h : PTwin u t z ps₁ ps₂) (sel : PartialSelector) :
    InfoTwin u (partialSelectorBody sel ps₁) (partialSelectorBody sel ps₂) := by
  unfold partialSelectorBody
  rw [h.cur.matchC_eq '+', h.cur.matchC_eq '-']
  split
  case isTrue hpm =>
    have htw := parsePartialTags_twin hz h
    cases htags : parsePartialTags ps₁ with
    | inl ci =>
      obtain ⟨ci₂, htags₂, hinfo⟩ := htw.1 _ htags
      rw [htags₂]
      dsimp only
      exact hinfo
    | inr pr =>
      obtain ⟨pq, psm⟩ := pr
      obtain ⟨inc, exc⟩ := pq
      obtain ⟨ps₂', htags₂, hps⟩ := htw.2 _ _ htags
      rw [htags₂]
      dsimp only
      exact partialSelectorSizeLimit_twin hz hps _
  case isFalse hpm =>
    exact partialSelectorSizeLimit_twin hz h _

theorem partialSelectorAfterLang_twin {u t : Str} {z : Char} {ps₁ ps₂ : PState}
    (hz : IsCloser z) (h : PTwin u t z ps₁ ps₂) (sel : PartialSelector) :
    InfoTwin u (partialSelectorAfterLang sel ps₁) (partialSelectorAfterLang sel ps₂) := by
  unfold partialSelectorAfterLang
  rw [h.cur.isEof₁, h.cur.isEof₂, if_neg Bool.false_ne_true, if_neg Bool.false_ne_true]
  rw [h.cur.matchC_eq ':']
  split
  case isTrue hc =>
    have twN := skipWhitespace_twin hz (h.cur.next_of_matchC hc hz.ne_colon)
    dsimp only
    rw [twN.isEof₁, twN.isEof₂, if_neg Bool.false_ne_true, if_neg Bool.false_ne_true]
    exact partialSelectorBody_twin hz (h.withCur twN) _
  case isFalse hc =>
    exact createContextInfo_twin (t := t) (z := z) h.widen _

theorem parsePartialSelector_twin {u t : Str} {z : Char} {ps₁ ps₂ : PState}
    (hz : IsCloser z) (h : PTwin u t z ps₁ ps₂) (kind : Str) :
    InfoTwin u (parsePartialSelector kind ps₁) (parsePartialSelector kind ps₂) := by
  unfold parsePartialSelector
  rw [h.cur.isEof₁, h.cur.isEof₂, if_neg Bool.false_ne_true, if_neg Bool.false_ne_true,
    h.cur.matchC_eq '@']
  split
  case isTrue hc =>
    have twN := h.cur.next_of_matchC hc hz.ne_at
    dsimp only
    rw [twN.isEof₁, twN.isEof₂, if_neg Bool.false_ne_true, if_neg Bool.false_ne_true]
    cases hid : parseIdentifier ((ps₁.cur.next).2) with
    | ok v =>
      obtain ⟨lang, cur⟩ := v
      obtain ⟨cur₂, hid₂, tC⟩ := (parseIdentifier_okTwin hz twN).1 _ _ hid
      rw [hid₂]
      dsimp only
      rw [tC.isEof₁, tC.isEof₂, if_neg Bool.false_ne_true, if_neg Bool.false_ne_true]
      exact partialSelectorAfterLang_twin hz (h.withCur tC) _
    | error e =>
      obtain ⟨m, cur⟩ := e
      obtain ⟨cur₂, hid₂, tC⟩ := (parseIdentifier_okTwin hz twN).2 _ _ hid
      rw [hid₂]
      dsimp only
      refine createContextInfo_twin (t := t) (z := z) ?_ _
      exact ⟨rfl, h.stackEq, tC⟩
  case isFalse hc =>
    exact partialSelectorAfterLang_twin hz h _

theorem PTwin.withCurW {u t : Str} {z : Char} {ps₁ ps₂ : PState}
    (h : PTwin u t z ps₁ ps₂) {c₁ c₂ : Cursor} (hc : TwinStW u t z c₁ c₂) :
    PTwinW u t z { ps₁ with cur := c₁ } { ps₂ with cur := c₂ } :=
  ⟨h.ctxEq, h.stackEq, hc⟩

theorem parsePartialNumberGen_twin {u t : Str} {z : Char} {ps₁ ps₂ : PState}
    (hz : IsCloser z) (h : PTwin u t z ps₁ ps₂) :
    InfoTwin u (parsePartialNumberGen ps₁) (parsePartialNumberGen ps₂) := by
  unfold parsePartialNumberGen
  rw [h.cur.isEof₁, h.cur.isEof₂, if_neg Bool.false_ne_true, if_neg Bool.false_ne_true,
    h.cur.matchC_eq ':']
  split
  case isTrue hc =>
    have twN := h.cur.next_of_matchC hc hz.ne_colon
    dsimp only
    rw [twN.isEof₁, twN.isEof₂, if_neg Bool.false_ne_true, if_neg Bool.false_ne_true]
    cases hnum : parseNumber ((ps₁.cur.next).2) with
    | ok v =>
      obtain ⟨len, cur⟩ := v
      obtain ⟨cur₂, hnum₂, tC⟩ := (parseNumber_okTwin hz twN).1 _ _ hnum
      rw [hnum₂]
      dsimp only
      rw [tC.isEof₁, tC.isEof₂, if_neg Bool.false_ne_true, if_neg Bool.false_ne_true]
      rw [tC.peek_eq]
      split
      · rename_i c
        split
        case isTrue hsb =>
          cases hb : parseShortNumberBase cur with
          | ok w =>
            obtain ⟨b, cur3⟩ := w
            obtain ⟨cur3₂, hb₂, tD⟩ := (parseShortNumberBase_okTwin hz tC).1 _ _ hb
            rw [hb₂]
            dsimp only
            exact createContextInfo_twin (t := t) (z := z) (h.withCur tD).widen _
          | error e =>
            obtain ⟨m, cur3⟩ := e
            obtain ⟨cur3₂, hb₂, tD⟩ := (parseShortNumberBase_okTwin hz tC).2 _ _ hb
            rw [hb₂]
            dsimp only
            exact createContextInfo_twin (t := t) (z := z) (h.withCurW tD) _
        case isFalse hsb =>
          rw [tC.matchC_eq ',']
          split
          case isTrue hcm =>
            have twS := skipWhitespace_twin hz (tC.next_of_matchC hcm hz.ne_comma)
            try dsimp only
            cases hnb : parseNumberBase (skipWhitespace ((cur.next).2)) with
            | ok w =>
              obtain ⟨b, cur3⟩ := w
              obtain ⟨cur3₂, hnb₂, tD⟩ := (parseNumberBase_okTwin hz twS).1 _ _ hnb
              rw [hnb₂]
              dsimp only
              exact createContextInfo_twin (t := t) (z := z) (h.withCur tD).widen _
            | error e =>
              obtain ⟨m, cur3⟩ := e
              obtain ⟨cur3₂, hnb₂, tD⟩ := (parseNumberBase_okTwin hz twS).2 _ _ hnb
              rw [hnb₂]
              dsimp only
              refine createContextInfo_twin (t := t) (z := z) ?_ _
              exact ⟨rfl, h.stackEq, tD⟩
          case isFalse hcm =>
            exact createContextInfo_twin (t := t) (z := z) (h.withCur tC).widen _
      · exact createContextInfo_twin (t := t) (z := z) (h.withCur tC).widen _
    | error e =>
      obtain ⟨m, cur⟩ := e
      obtain ⟨cur₂, hnum₂, tC⟩ := (parseNumber_okTwin hz twN).2 _ _ hnum
      rw [hnum₂]
      dsimp only
      refine createContextInfo_twin (t := t) (z := z) ?_ _
      exact ⟨rfl, h.stackEq, tC⟩
  case isFalse hc =>
    exact createContextInfo_twin (t := t) (z := z) h.widen _

theorem parsePartialSpecialGen_twin {u t : Str} {z : Char} {ps₁ ps₂ : PState}
    (hz : IsCloser z) (h : PTwin u t z ps₁ ps₂) :
    InfoTwin u (parsePartialSpecialGen ps₁) (parsePartialSpecialGen ps₂) := by
  unfold parsePartialSpecialGen
  rw [h.cur.isEof₁, h.cur.isEof₂, if_neg Bool.false_ne_true, if_neg Bool.false_ne_true,
    h.cur.matchC_eq ':']
  split
  case isTrue hc =>
    have twN := h.cur.next_of_matchC hc hz.ne_colon
    dsimp only
    rw [twN.isEof₁, twN.isEof₂, if_neg Bool.false_ne_true, if_neg Bool.false_ne_true]
    cases hnum : parseNumber ((ps₁.cur.next).2) with
    | ok v =>
      obtain ⟨len, cur⟩ := v
      obtain ⟨cur₂, hnum₂, tC⟩ := (parseNumber_okTwin hz twN).1 _ _ hnum
      rw [hnum₂]
      dsimp only
      rw [tC.isEof₁, tC.isEof₂, if_neg Bool.false_ne_true, if_neg Bool.false_ne_true]
      rw [tC.matchC_eq '-']
      split
      case isTrue hcm =>
        have twM := tC.next_of_matchC hcm hz.ne_minus
        try dsimp only
        rw [twM.isEof₁, twM.isEof₂, if_neg Bool.false_ne_true, if_neg Bool.false_ne_true]
        cases hnum2 : parseNumber ((cur.next).2) with
        | ok w =>
          obtain ⟨len2, cur3⟩ := w
          obtain ⟨cur3₂, hnum2₂, tD⟩ := (parseNumber_okTwin hz twM).1 _ _ hnum2
          rw [hnum2₂]
          dsimp only
          exact createContextInfo_twin (t := t) (z := z) (h.withCur tD).widen _
        | error e =>
          obtain ⟨m, cur3⟩ := e
          obtain ⟨cur3₂, hnum2₂, tD⟩ := (parseNumber_okTwin hz twM).2 _ _ hnum2
          rw [hnum2₂]
          dsimp only
          refine createContextInfo_twin (t := t) (z := z) ?_ _
          exact ⟨rfl, h.stackEq, tD⟩
      case isFalse hcm =>
        exact createContextInfo_twin (t := t) (z := z) (h.withCur tC).widen _
    | error e =>
      obtain ⟨m, cur⟩ := e
      obtain ⟨cur₂, hnum₂, tC⟩ := (parseNumber_okTwin hz twN).2 _ _ hnum
      rw [hnum₂]
      dsimp only
      refine createContextInfo_twin (t := t) (z := z) ?_ _
      exact ⟨rfl, h.stackEq, tC⟩
  case isFalse hc =>
    exact createContextInfo_twin (t := t) (z := z) h.widen _

theorem partialGlobalOptions_twin {u t : Str} {z : Char} {ps₁ ps₂ : PState}
    (hz : IsCloser z) (h : PTwin u t z ps₁ ps₂) (g : PartialGlobalSettings) :
    InfoTwin u (partialGlobalOptions g ps₁) (partialGlobalOptions g ps₂) := by
  unfold partialGlobalOptions
  rw [h.cur.matchC_eq ',']
  split
  case isTrue hc =>
    have twN := skipWhitespace_twin hz (h.cur.next_of_matchC hc hz.ne_comma)
    dsimp only
    cases hopt : parseOptions (skipWhitespace ((ps₁.cur.next).2)) with
    | ok v =>
      obtain ⟨opts, cur⟩ := v
      obtain ⟨cur₂, hopt₂, tC⟩ := (parseOptions_twin hz twN).1 _ _ hopt
      rw [hopt₂]
      dsimp only
      exact createContextInfo_twin (t := t) (z := z) (h.withCur tC).widen _
    | error e =>
      obtain ⟨m, cur⟩ := e
      obtain ⟨cur₂, hopt₂, tC⟩ := (parseOptions_twin hz twN).2 _ _ hopt
      rw [hopt₂]
      dsimp only
      refine createContextInfo_twin (t := t) (z := z) ?_ _
      exact ⟨rfl, h.stackEq, tC⟩
  case isFalse hc =>
    exact createContextInfo_twin (t := t) (z := z) h.widen _

theorem partialGlobalSizeLimit_twin {u t : Str} {z : Char} {ps₁ ps₂ : PState}
    (hz : IsCloser z) (h : PTwin u t z ps₁ ps₂) (g : PartialGlobalSettings) :
    InfoTwin u (partialGlobalSizeLimit g ps₁) (partialGlobalSizeLimit g ps₂) := by
  unfold partialGlobalSizeLimit
  rw [h.cur.peek_eq]
  split
  · rename_i c
    split
    case isTrue hcomp =>
      cases hsl : parseSizeLimit ps₁.cur with
      | ok v =>
        obtain ⟨sl, cur⟩ := v
        obtain ⟨cur₂, hsl₂, tC⟩ := (parseSizeLimit_okTwin hz h.cur).1 _ _ hsl
        rw [hsl₂]
        dsimp only
        rw [tC.isEof₁, tC.isEof₂, if_neg Bool.false_ne_true, if_neg Bool.false_ne_true]
        rw [tC.matchC_eq '+', tC.matchC_eq '-']
        split
        case isTrue hpm =>
          have htw := parsePartialTags_twin hz (h.withCur tC)
          cases htags : parsePartialTags { ps₁ with cur := cur } with
          | inl ci =>
            obtain ⟨ci₂, htags₂, hinfo⟩ := htw.1 _ htags
            rw [htags₂]
            dsimp only
            exact hinfo
          | inr pr =>
            obtain ⟨pq, psm⟩ := pr
            obtain ⟨inc, exc⟩ := pq
            obtain ⟨ps₂', htags₂, hps⟩ := htw.2 _ _ htags
            rw [htags₂]
            dsimp only
            exact partialGlobalOptions_twin hz hps _
        case isFalse hpm =>
          exact partialGlobalOptions_twin hz (h.withCur tC) _
      | error e =>
        obtain ⟨m, cur⟩ := e
        obtain ⟨cur₂, hsl₂, tC⟩ := (parseSizeLimit_okTwin hz h.cur).2 _ _ hsl
        rw [hsl₂]
        dsimp only
        refine createContextInfo_twin (t := t) (z := z) ?_ _
        exact ⟨rfl, h.stackEq, tC⟩
    case isFalse hcomp =>
      exact partialGlobalOptions_twin hz h _
  · exact partialGlobalOptions_twin hz h _

theorem partialGlobalBody_twin {u t : Str} {z : Char} {ps₁ ps₂ : PState}
    (hz : IsCloser z) (h : PTwin u t z ps₁ ps₂) (g : PartialGlobalSettings) :
    InfoTwin u (partialGlobalBody g ps₁) (partialGlobalBody g ps₂) := by
  unfold partialGlobalBody
  rw [h.cur.matchC_eq '+', h.cur.matchC_eq '-']
  split
  case isTrue hpm =>
    have htw := parsePartialTags_twin hz h
    cases htags : parsePartialTags ps₁ with
    | inl ci =>
      obtain ⟨ci₂, htags₂, hinfo⟩ := htw.1 _ htags
      rw [htags₂]
      dsimp only
      exact hinfo
    | inr pr =>
      obtain ⟨pq, psm⟩ := pr
      obtain ⟨inc, exc⟩ := pq
      obtain ⟨ps₂', htags₂, hps⟩ := htw.2 _ _ htags
      rw [htags₂]
      dsimp only
      exact partialGlobalSizeLimit_twin hz hps _
  case isFalse hpm =>
    exact partialGlobalSizeLimit_twin hz h _

theorem parsePartialGlobalSettings_twin {u t : Str} {z : Char} {ps₁ ps₂ : PState}
    (hz : IsCloser z) (h : PTwin u t z ps₁ ps₂) :
    InfoTwin u (parsePartialGlobalSettings ps₁) (parsePartialGlobalSettings ps₂) := by
  unfold parsePartialGlobalSettings
  rw [h.cur.isEof₁, h.cur.isEof₂, if_neg Bool.false_ne_true, if_neg Bool.false_ne_true,
    h.cur.matchC_eq '@']
  split
  case isTrue hc =>
    have twN := h.cur.next_of_matchC hc hz.ne_at
    dsimp only
    rw [twN.isEof₁, twN.isEof₂, if_neg Bool.false_ne_true, if_neg Bool.false_ne_true]
    cases hid : parseIdentifier ((ps₁.cur.next).2) with
    | ok v =>
      obtain ⟨lang, cur⟩ := v
      obtain ⟨cur₂, hid₂, tC⟩ := (parseIdentifier_okTwin hz twN).1 _ _ hid
      rw [hid₂]
      dsimp only
      exact partialGlobalBody_twin hz (h.withCur tC) _
    | error e =>
      obtain ⟨m, cur⟩ := e
      obtain ⟨cur₂, hid₂, tC⟩ := (parseIdentifier_okTwin hz twN).2 _ _ hid
      rw [hid₂]
      dsimp only
      refine createContextInfo_twin (t := t) (z := z) ?_ _
      exact ⟨rfl, h.stackEq, tC⟩
  case isFalse hc =>
    exact partialGlobalBody_twin hz h _

theorem parsePartialElement_twin {u t : Str} {z : Char} {ps₁ ps₂ : PState}
    (hz : IsCloser z) (h : PTwin u t z ps₁ ps₂) :
    InfoTwin u (parsePartialElement ps₁) (parsePartialElement ps₂) := by
  unfold parsePartialElement
  rw [h.cur.isEof₁, h.cur.isEof₂, if_neg Bool.false_ne_true, if_neg Bool.false_ne_true]
  cases hid : parseIdentifier ps₁.cur with
  | ok v =>
    obtain ⟨identifier, cur⟩ := v
    obtain ⟨cur₂, hid₂, tC⟩ := (parseIdentifier_okTwin hz h.cur).1 _ _ hid
    rw [hid₂]
    dsimp only
    split
    case isTrue hnum =>
      refine parsePartialNumberGen_twin (t := t) hz ?_
      exact ⟨rfl, h.stackEq, tC⟩
    case isFalse hnum =>
      split
      case isTrue hsp =>
        refine parsePartialSpecialGen_twin (t := t) hz ?_
        exact ⟨rfl, h.stackEq, tC⟩
      case isFalse hsp =>
        refine parsePartialSelector_twin (t := t) hz ?_ identifier
        exact ⟨rfl, h.stackEq, tC⟩
  | error e =>
    obtain ⟨m, cur⟩ := e
    obtain ⟨cur₂, hid₂, tC⟩ := (parseIdentifier_okTwin hz h.cur).2 _ _ hid
    rw [hid₂]
    dsimp only
    refine createContextInfo_twin (t := t) (z := z) ?_ _
    exact ⟨rfl, h.stackEq, tC⟩

theorem next_pos_of_peek {st : Cursor} {c : Char} (h : st.peek = some c) :
    ((st.next).2).pos = st.pos + 1 := by
  unfold Cursor.next
  rw [show st.rest.head? = some c from h]

theorem parsePartialInternal_twin {pre body t : Str} {op z : Char}
    (hz : IsCloser z)
    (hop : op = '\x7b' ∨ op = '[')
    (hpre : ∀ c ∈ pre, c ≠ '\x7b' ∧ c ≠ '[' ∧ c ≠ '\\') :
    ∀ (f₁ f₂ : Nat) (ps₁ ps₂ : PState),
      PTwin (pre ++ op :: body) t z ps₁ ps₂ →
      ps₂.cur.pos ≤ pre.length →
      pre.length - ps₂.cur.pos < f₁ →
      pre.length - ps₂.cur.pos < f₂ →
      ∃ ci₁ ci₂, (parsePartialInternal f₁ ps₁).1 = some ci₁ ∧
        (parsePartialInternal f₂ ps₂).1 = some ci₂ ∧
        InfoTwin (pre ++ op :: body) ci₁ ci₂ := by
  intro f₁
  induction f₁ with
  | zero =>
    intro f₂ ps₁ ps₂ h hpos h1 h2
    omega
  | succ n ih =>
    intro f₂ ps₁ ps₂ h hpos h1 h2
    cases f₂ with
    | zero => omega
    | succ m =>
      rw [parsePartialInternal, parsePartialInternal]
      rw [h.cur.isEof₁, h.cur.isEof₂, if_neg Bool.false_ne_true, if_neg Bool.false_ne_true]
      rcases Nat.lt_or_ge ps₂.cur.pos pre.length with hlt | hge
      · -- still inside the plain prefix
        have hdp : pre.drop ps₂.cur.pos =
            pre.get ⟨ps₂.cur.pos, hlt⟩ :: pre.drop (ps₂.cur.pos + 1) :=
          List.drop_eq_getElem_cons hlt
        have hdrop : (pre ++ op :: body).drop ps₂.cur.pos =
            pre.get ⟨ps₂.cur.pos, hlt⟩ :: (pre.drop (ps₂.cur.pos + 1) ++ op :: body) := by
          rw [List.drop_append_of_le_length (le_of_lt hlt), hdp]
          rfl
        have hpk₂ : ps₂.cur.peek = some (pre.get ⟨ps₂.cur.pos, hlt⟩) := by
          show ps₂.cur.rest.head? = _
          rw [h.cur.rest₂, hdrop]
          rfl
        have hcmem : pre.get ⟨ps₂.cur.pos, hlt⟩ ∈ pre := pre.get_mem _ hlt
        obtain ⟨hc1, hc2, hc3⟩ := hpre _ hcmem
        have hcz : pre.get ⟨ps₂.cur.pos, hlt⟩ ≠ z := by
          intro he
          refine h.cur.zNot ?_
          rw [hdrop, ← he]
          exact List.mem_cons_self _ _
        have hm1 : ps₂.cur.matchC '\x7b' = false := by
          unfold Cursor.matchC
          rw [hpk₂]
          exact beq_eq_false_iff_ne.mpr hc1
        have hm2 : ps₂.cur.matchC '[' = false := by
          unfold Cursor.matchC
          rw [hpk₂]
          exact beq_eq_false_iff_ne.mpr hc2
        have hm3 : ps₂.cur.matchC '\\' = false := by
          unfold Cursor.matchC
          rw [hpk₂]
          exact beq_eq_false_iff_ne.mpr hc3
        rw [h.cur.matchC_eq '\x7b', hm1, if_neg Bool.false_ne_true, if_neg Bool.false_ne_true,
          h.cur.matchC_eq '[', hm2, if_neg Bool.false_ne_true, if_neg Bool.false_ne_true,
          h.cur.matchC_eq '\\', hm3, if_neg Bool.false_ne_true, if_neg Bool.false_ne_true]
        have twN : TwinSt (pre ++ op :: body) t z ((ps₁.cur.next).2) ((ps₂.cur.next).2) :=
          h.cur.next_eq.2.2 _ (by rw [next_fst]; exact hpk₂) hcz
        have hp' : ((ps₂.cur.next).2).pos = ps₂.cur.pos + 1 := next_pos_of_peek hpk₂
        refine ih m _ _ ⟨h.ctxEq, h.stackEq, twN⟩ ?_ ?_ ?_
        · show ((ps₂.cur.next).2).pos ≤ pre.length
          rw [hp']
          omega
        · show pre.length - ((ps₂.cur.next).2).pos < n
          rw [hp']
          omega
        · show pre.length - ((ps₂.cur.next).2).pos < m
          rw [hp']
          omega
      · -- sitting on the opener
        have hpe : ps₂.cur.pos = pre.length := le_antisymm hpos hge
        have hdrop : (pre ++ op :: body).drop ps₂.cur.pos = op :: body := by
          rw [hpe]
          exact List.drop_left pre (op :: body)
        have hpk₂ : ps₂.cur.peek = some op := by
          show ps₂.cur.rest.head? = _
          rw [h.cur.rest₂, hdrop]
          rfl
        have hzop : op ≠ z := by
          rcases hz with h1 | h1 <;> rcases hop with h2 | h2 <;>
            subst h1 <;> subst h2 <;> decide
        have twN : TwinSt (pre ++ op :: body) t z ((ps₁.cur.next).2) ((ps₂.cur.next).2) :=
          h.cur.next_eq.2.2 _ (by rw [next_fst]; exact hpk₂) hzop
        rcases hop with hopc | hopc
        · -- '\x7b': placeholder element
          subst hopc
          have hm1 : ps₂.cur.matchC '\x7b' = true := by
            unfold Cursor.matchC
            rw [hpk₂]
            decide
          rw [h.cur.matchC_eq '\x7b', hm1, if_pos rfl, if_pos rfl]
          dsimp only
          refine ⟨_, _, rfl, rfl, parsePartialElement_twin (t := t) hz ?_⟩
          refine ⟨rfl, ?_, twN⟩
          show ps₁.stack ++ [ps₁.ctx] = ps₂.stack ++ [ps₂.ctx]
          rw [h.stackEq, h.ctxEq]
        · -- '[': global settings
          subst hopc
          have hm1 : ps₂.cur.matchC '\x7b' = false := by
            unfold Cursor.matchC
            rw [hpk₂]
            decide
          have hm2 : ps₂.cur.matchC '[' = true := by
            unfold Cursor.matchC
            rw [hpk₂]
            decide
          rw [h.cur.matchC_eq '\x7b', hm1, if_neg Bool.false_ne_true,
            if_neg Bool.false_ne_true, h.cur.matchC_eq '[', hm2, if_pos rfl, if_pos rfl]
          dsimp only
          refine ⟨_, _, rfl, rfl, parsePartialGlobalSettings_twin (t := t) hz ?_⟩
          refine ⟨rfl, ?_, twN⟩
          show ps₁.stack ++ [ps₁.ctx] = ps₂.stack ++ [ps₂.ctx]
          rw [h.stackEq, h.ctxEq]

theorem parsePartial_locality (pre body tail : Str) (op z : Char)
    (hz : IsCloser z) (hop : op = '\x7b' ∨ op = '[')
    (hpre : ∀ c ∈ pre, c ≠ '\x7b' ∧ c ≠ '[' ∧ c ≠ '\\')
    (hzpre : z ∉ pre) (hzbody : z ∉ body) :
    PatternParser.parsePartial (pre ++ op :: (body ++ z :: tail)) =
      PatternParser.parsePartial (pre ++ op :: (body ++ [z])) ∧
    (PatternParser.parsePartial (pre ++ op :: (body ++ z :: tail))).position ≤
      pre.length + body.length + 2 := by
  have hzop : z ≠ op := by
    rcases hz with h1 | h1 <;> rcases hop with h2 | h2 <;> subst h1 <;> subst h2 <;> decide
  have h0 : PTwin (pre ++ op :: body) tail z
      ⟨.OUTSIDE_PLACEHOLDER, [], ⟨pre ++ op :: (body ++ z :: tail), 0, Option.none⟩⟩
      ⟨.OUTSIDE_PLACEHOLDER, [], ⟨pre ++ op :: (body ++ [z]), 0, Option.none⟩⟩ := by
    refine ⟨rfl, rfl, ?_⟩
    refine ⟨?_, ?_, rfl, rfl, ?_, ?_⟩
    · show pre ++ op :: (body ++ z :: tail) = (pre ++ op :: body) ++ z :: tail
      simp [List.append_assoc]
    · show pre ++ op :: (body ++ [z]) = (pre ++ op :: body) ++ [z]
      simp [List.append_assoc]
    · exact Nat.zero_le _
    · show z ∉ (pre ++ op :: body).drop 0
      simp only [List.drop_zero]
      intro hmem
      rcases List.mem_append.1 hmem with hmem | hmem
      · exact hzpre hmem
      · rcases List.mem_cons.1 hmem with he | hmem
        · exact hzop he
        · exact hzbody hmem
  obtain ⟨ci₁, ci₂, e₁, e₂, hinfo⟩ := parsePartialInternal_twin hz hop hpre
    ((pre ++ op :: (body ++ z :: tail)).length + 1)
    ((pre ++ op :: (body ++ [z])).length + 1) _ _ h0
    (Nat.zero_le _)
    (by simp only [List.length_append, List.length_cons]; omega)
    (by simp only [List.length_append, List.length_cons]; omega)
  unfold PatternParser.parsePartial
  dsimp only
  cases hr₁ : parsePartialInternal ((pre ++ op :: (body ++ z :: tail)).length + 1)
      ⟨.OUTSIDE_PLACEHOLDER, [], ⟨pre ++ op :: (body ++ z :: tail), 0, Option.none⟩⟩ with
  | mk o₁ q₁ =>
    rw [hr₁] at e₁
    dsimp only at e₁
    subst e₁
    cases hr₂ : parsePartialInternal ((pre ++ op :: (body ++ [z])).length + 1)
        ⟨.OUTSIDE_PLACEHOLDER, [], ⟨pre ++ op :: (body ++ [z]), 0, Option.none⟩⟩ with
    | mk o₂ q₂ =>
      rw [hr₂] at e₂
      dsimp only at e₂
      subst e₂
      dsimp only
      refine ⟨hinfo.1, ?_⟩
      have hb := hinfo.2
      simp only [List.length_append, List.length_cons] at hb ⊢
      omega

/-- C10: parse_partial derives its descriptor only from the first placeholder
or global-settings block.  For any plain prefix `pre` (no `\x7b`, `[` or `\\`),
opener `op` (`\x7b` or `[`), body and closer `z` (`\x7d` or `]`) not occurring
earlier, everything after the construct's closer is irrelevant: the descriptor
of `pre ++ op :: body ++ z :: tail` equals that of the input truncated right
after the closer, and its position never passes the closer (it is at most the
index just past it).  In particular `parse_partial` on the two-placeholder
input `\x7bnoun\x7d \x7badjective\x7d` returns exactly the descriptor of
`\x7bnoun\x7d`. -/
theorem parsePartial_first_construct_only
    (pre body tail : Str) (op z : Char)
    (hz : z = '\x7d' ∨ z = ']')
    (hop : op = '\x7b' ∨ op = '[')
    (hpre : ∀ c ∈ pre, c ≠ '\x7b' ∧ c ≠ '[' ∧ c ≠ '\\')
    (hzpre : z ∉ pre) (hzbody : z ∉ body) :
    (PatternParser.parsePartial (pre ++ op :: (body ++ z :: tail)) =
      PatternParser.parsePartial (pre ++ op :: (body ++ [z])) ∧
     (PatternParser.parsePartial (pre ++ op :: (body ++ z :: tail))).position ≤
      pre.length + body.length + 2) ∧
    PatternParser.parsePartial (("\x7bnoun\x7d \x7badjective\x7d").data) =
      PatternParser.parsePartial (("\x7bnoun\x7d").data) := by
  refine ⟨parsePartial_locality pre body tail op z hz hop hpre hzpre hzbody, ?_⟩
  rfl

theorem parsePartial_first_construct_only_witness :
    PatternParser.parsePartial
        (([' ']) ++ '\x7b' :: (("noun").data ++ '\x7d' :: ((" x").data))) =
      PatternParser.parsePartial (([' ']) ++ '\x7b' :: (("noun").data ++ ['\x7d'])) ∧
    (PatternParser.parsePartial
        (([' ']) ++ '\x7b' :: (("noun").data ++ '\x7d' :: ((" x").data)))).position ≤
      ([' ']).length + ("noun").data.length + 2 := by
  have h := parsePartial_first_construct_only ([' ']) (("noun").data) ((" x").data)
    '\x7b' '\x7d' (Or.inl rfl) (Or.inl rfl) (by decide) (by decide) (by decide)
  exact ⟨h.1.1, h.1.2⟩

end SlugKit


namespace SlugKit

/-! ## Claim C2 -/

/-- C2: evaluation of the long and short roman base forms.  The long form
`roman` yields the enum member `RomanLower`, whose TypeScript string value is
`'ROMAN'` (uppercase), and the long form `ROMAN` yields the member `Roman`,
whose string value is `'roman'` (lowercase); the short form `r` also yields
`RomanLower` with value `'ROMAN'`.  The runtime values are therefore swapped
relative to the spec's enumeration `roman (lowercase), ROMAN (uppercase)` and
its mapping `r→roman`. -/
theorem parse_roman_long_forms_swap_values :
    PatternParser.parse (("\x7bnumber:5,roman\x7d").data) =
      .ok ⟨[.numberGen ⟨5, .RomanLower⟩], Option.none, [[], []]⟩ ∧
    NumberBase.value .RomanLower = ("ROMAN").data ∧
    PatternParser.parse (("\x7bnumber:5,ROMAN\x7d").data) =
      .ok ⟨[.numberGen ⟨5, .Roman⟩], Option.none, [[], []]⟩ ∧
    NumberBase.value .Roman = ("roman").data ∧
    PatternParser.parse (("\x7bnumber:5r\x7d").data) =
      .ok ⟨[.numberGen ⟨5, .RomanLower⟩], Option.none, [[], []]⟩ := by
  refine ⟨by rfl, by rfl, by rfl, by rfl, by rfl⟩

/-! ## Claim C3 -/

/-- C3: once a size limit has been completed in a selector, the partial parser
for `{noun:>5` reports state `EXPECTING_TAG_ONLY`, whose expected-next tokens
are exactly tag spec, option and close brace — comparison operators are no
longer advertised. -/
theorem parsePartial_after_size_limit_tag_only :
    (PatternParser.parsePartial (("\x7bnoun:>5").data)).context =
      ParserContext.EXPECTING_TAG_ONLY ∧
    (PatternParser.parsePartial (("\x7bnoun:>5").data)).expectedNext =
      [ExpectedToken.TAG_SPEC, ExpectedToken.OPTION, ExpectedToken.CLOSE_BRACE] ∧
    ExpectedToken.COMPARISON_OP ∉
      (PatternParser.parsePartial (("\x7bnoun:>5").data)).expectedNext := by
  refine ⟨by decide, by decide, by decide⟩

/-! ## Claim C4 (counterexample) -/

/-- C4 counterexample: `{noun:>abc` contains a definite syntax error (the full
parser rejects it for a non-numeric size limit, not for incompleteness), yet
the partial parser returns `is_valid = true` with no error message — the catch
block swallows the error and only records the deepest-reached state
`EXPECTING_SIZE_LIMIT`. -/
theorem parsePartial_definite_error_isValid_true :
    PatternParser.validate (("\x7bnoun:>abc\x7d").data) = false ∧
    (PatternParser.parsePartial (("\x7bnoun:>abc").data)).isValid = true ∧
    (PatternParser.parsePartial (("\x7bnoun:>abc").data)).errorMessage = Option.none ∧
    (PatternParser.parsePartial (("\x7bnoun:>abc").data)).context =
      ParserContext.EXPECTING_SIZE_LIMIT := by
  refine ⟨by decide, by decide, by decide, by decide⟩

/-! ## Claim C5 -/

/-- C5 counterexample: the full parser accepts a selector in which the same tag
occurs twice; `{noun:+a +a}` parses with `includeTags = [a, a]`. -/
theorem parse_accepts_duplicate_tags :
    PatternParser.parse (("\x7bnoun:+a +a\x7d").data) =
      .ok ⟨[.selector ⟨("noun").data, Option.none, [("a").data, ("a").data],
        [], Option.none, []⟩], Option.none, [[], []]⟩ := by
  rfl

/-- C5 amended: the parser records every tag occurrence in source order and
performs no per-selector uniqueness check, so a tag may appear more than once
across the include and exclude lists of one selector. -/
theorem parse_preserves_repeated_tags_in_order :
    PatternParser.parse (("\x7bnoun:+a -b +a\x7d").data) =
      .ok ⟨[.selector ⟨("noun").data, Option.none, [("a").data, ("a").data],
        [("b").data], Option.none, []⟩], Option.none, [[], []]⟩ := by
  rfl

/-! ## Claim C7 -/

/-- C7: comma-less options are rejected after include-tags and after a size
limit, but accepted after exclude-tags only — the guard tests only
`includeTags.length === 0 && !sizeLimit`, so `{noun:-nsfw case=lower}` parses
although tags appeared earlier in the selector body without a comma before the
options. -/
theorem parse_exclude_tags_allow_commaless_options :
    PatternParser.parse (("\x7bnoun:-nsfw case=lower\x7d").data) =
      .ok ⟨[.selector ⟨("noun").data, Option.none, [], [("nsfw").data],
        Option.none, [(("case").data, ("lower").data)]⟩], Option.none, [[], []]⟩ ∧
    PatternParser.validate (("\x7bnoun:+a case=lower\x7d").data) = false ∧
    PatternParser.validate (("\x7bnoun:>5 case=lower\x7d").data) = false ∧
    PatternParser.validate (("\x7bnoun:case=lower\x7d").data) = true ∧
    PatternParser.validate (("\x7bnoun:+a,case=lower\x7d").data) = true := by
  refine ⟨by rfl, by rfl, by rfl, by rfl, by rfl⟩

/-! ## Claim C9 -/

/-- C9: `{number}` is a complete pattern accepted by the full parser, yet the
partial parser's descriptor for the prefix `{number` advertises only `colon` —
`close_brace` is missing from `expected_next` although `}` would legally
continue the input. -/
theorem parsePartial_number_omits_close_brace :
    PatternParser.isComplete (("\x7bnumber\x7d").data) = true ∧
    (PatternParser.parsePartial (("\x7bnumber").data)).expectedNext =
      [ExpectedToken.COLON] ∧
    ExpectedToken.CLOSE_BRACE ∉
      (PatternParser.parsePartial (("\x7bnumber").data)).expectedNext := by
  refine ⟨by decide, by decide, by decide⟩

end SlugKit

namespace SlugKit

/-! ## Claim C1 -/

/-- C1: on every input on which `parse` succeeds, the returned pattern has
exactly one more text chunk than it has elements. -/
theorem parse_textChunks_length (input : Str) (pp : ParsedPattern)
    (h : PatternParser.parse input = .ok pp) :
    pp.textChunks.length = pp.elements.length + 1 := by
  unfold PatternParser.parse at h
  dsimp only at h
  split at h
  · exact Except.noConfusion h
  case _ acc st heq =>
    have hinv := parseLoop_chunks_eq _ _ _ _ heq (by simp)
    cases h
    simp [hinv]

/-- C1 witness: `parse` on `a{noun}b` returns one selector with the two text
chunks `a` and `b`. -/
theorem parse_textChunks_length_witness :
    ([("a").data, ("b").data] : List Str).length =
      ([PatternElement.selector ⟨("noun").data, Option.none, [], [],
        Option.none, []⟩] : List PatternElement).length + 1 :=
  parse_textChunks_length (("a\x7bnoun\x7db").data)
    ⟨[.selector ⟨("noun").data, Option.none, [], [], Option.none, []⟩],
      Option.none, [("a").data, ("b").data]⟩ (by rfl)

/-! ## Claim C4 (amended) -/

/-- C4 amended: for every input the partial parser returns a descriptor with
`is_valid = true` and no error message — definite syntax errors inside the
first construct are swallowed by the catch blocks, which only set the
deepest-reached state; `is_valid` is false for no input. -/
theorem parsePartial_always_valid (input : Str) :
    (PatternParser.parsePartial input).isValid = true ∧
    (PatternParser.parsePartial input).errorMessage = Option.none :=
  ⟨(parsePartial_benign input).1, (parsePartial_benign input).2.1⟩

/-! ## Claim C6 -/

/-- C6 counterexample: `parse` accepts `{special:0}`, producing a
`SpecialCharGen` with `minLength = 0`, which is not positive. -/
theorem parse_special_accepts_zero_min :
    PatternParser.parse (("\x7bspecial:0\x7d").data) =
      .ok ⟨[.specialChar ⟨0, 0⟩], Option.none, [[], []]⟩ := by
  rfl

/-- C6 amended: every `SpecialCharGen` produced by a successful parse
satisfies `minLength ≤ maxLength` (`minLength` may be zero); a range sets both
bounds (`{special:3-7}` gives 3 and 7), a single length sets
`maxLength = minLength` (`{special:5}` gives 5 and 5), and a decreasing range
such as `{special:5-3}` is rejected. -/
theorem parse_special_min_le_max :
    (∀ (input : Str) (pp : ParsedPattern), PatternParser.parse input = .ok pp →
      ∀ g, PatternElement.specialChar g ∈ pp.elements →
        g.minLength ≤ g.maxLength) ∧
    PatternParser.parse (("\x7bspecial:3-7\x7d").data) =
      .ok ⟨[.specialChar ⟨3, 7⟩], Option.none, [[], []]⟩ ∧
    PatternParser.parse (("\x7bspecial:5\x7d").data) =
      .ok ⟨[.specialChar ⟨5, 5⟩], Option.none, [[], []]⟩ ∧
    PatternParser.validate (("\x7bspecial:5-3\x7d").data) = false :=
  ⟨parse_special_min_le_max_main, by rfl, by rfl, by rfl⟩

/-- C6 witness: the universal part of the amended claim applied to
`{special:3-7}` yields `3 ≤ 7`. -/
theorem parse_special_min_le_max_witness : (3 : Nat) ≤ 7 :=
  parse_special_min_le_max.1 (("\x7bspecial:3-7\x7d").data)
    ⟨[.specialChar ⟨3, 7⟩], Option.none, [[], []]⟩ (by rfl)
    ⟨3, 7⟩ (by simp)

/-! ## Claim C8 -/

/-- C8: for every input, `valid_prefix` returns a prefix of the input, and on
inputs the full parser accepts it returns the input itself. -/
theorem getValidPrefix_isPrefix (input : Str) :
    (PatternParser.getValidPrefix input) <+: input ∧
    (∀ pp, PatternParser.parse input = .ok pp →
      PatternParser.getValidPrefix input = input) := by
  constructor
  · unfold PatternParser.getValidPrefix
    split
    · exact List.prefix_refl input
    · obtain ⟨-, -, n, hn⟩ := parsePartial_benign input
      rw [hn]
      exact List.take_prefix n input
  · intro pp hpp
    have hc : PatternParser.isComplete input = true := by
      unfold PatternParser.isComplete
      rw [hpp]
    unfold PatternParser.getValidPrefix
    simp [hc]

/-- C8 witness: `valid_prefix` of the complete pattern `{noun}` is the pattern
itself. -/
theorem getValidPrefix_isPrefix_witness :
    PatternParser.getValidPrefix (("\x7bnoun\x7d").data) = ("\x7bnoun\x7d").data :=
  (getValidPrefix_isPrefix (("\x7bnoun\x7d").data)).2
    ⟨[.selector ⟨("noun").data, Option.none, [], [], Option.none, []⟩],
      Option.none, [[], []]⟩ (by rfl)

end SlugKit
